import Mathlib

/-!
# cmdfiles: chunked file transfer

A shallow embedding of the upload / download engine of `tujiaw/cmdfiles`
(`cfclient/cfclient.go`, `client/client.go`, `cfserver/cfserver.go`,
`server/server.go`) and theorems about it.

Conventions of the embedding:

* a Go `string` is a Lean `String`, a `[]byte` is a `List UInt8`; positions in
  a string count characters, which are the bytes of the Go string for ASCII text;
* the file system is a map from path to file content; the error result of each
  system call the code inspects is an explicit input (an outcome flag);
* an `io.Reader` is a step function on an explicit reader state;
* a goroutine feeding a channel that a single loop drains is the list of the
  values sent, in order (one producer, one consumer, FIFO);
* loops whose termination depends on the reader take a fuel argument and
  return `none` when it runs out.
-/

namespace Cmdfiles

abbrev Byte := UInt8
abbrev Bytes := List UInt8

/-- Go `error` values as far as the transfer code tells them apart: `io.EOF`
against every other error. `Option IOErr` is a Go `error`, `none` being `nil`. -/
inductive IOErr where
  | EOF
  | other
  deriving DecidableEq, Repr

/-! ## strconv -/

/-- The ASCII digit of `d < 10`. -/
def digitChar (d : Nat) : Char := Char.ofNat (48 + d)

/-- Decimal digits of `u`, most significant first, pushed in front of `acc`
(the loop of `strconv.formatBits` for base 10). -/
def formatBits : Nat → Nat → List Char → List Char
  | 0, _, acc => acc
  | fuel + 1, u, acc =>
    if 10 ≤ u then formatBits fuel (u / 10) (digitChar (u % 10) :: acc)
    else digitChar u :: acc

/-- Decimal representation of a natural number. -/
def natToString (u : Nat) : String := String.mk (formatBits (u + 1) u [])

/-- Go `strconv.Itoa`; also what `fmt.Sprintf("%d", i)` prints. -/
def Itoa (i : Int) : String :=
  if i < 0 then String.mk ('-' :: formatBits (i.natAbs + 1) i.natAbs [])
  else natToString i.toNat

/-- Value of a string of decimal digits read left to right, starting from `acc`;
`none` when a character is not in `'0'..'9'`. -/
def parseDigits : List Char → Nat → Option Nat
  | [], acc => some acc
  | c :: cs, acc =>
    if 48 ≤ c.toNat ∧ c.toNat ≤ 57 then parseDigits cs (acc * 10 + (c.toNat - 48))
    else none

/-- Largest Go `int` on a 64-bit platform. -/
def maxInt : Nat := 2 ^ 63 - 1

/-- Go `strconv.Atoi`: an optional sign, at least one decimal digit, and a value
that fits `int`; `none` stands for a non-nil error. -/
def Atoi (s : String) : Option Int :=
  match s.data with
  | [] => none
  | c :: cs =>
    if c = '-' then
      match cs with
      | [] => none
      | _ :: _ =>
        match parseDigits cs 0 with
        | some n => if n ≤ maxInt + 1 then some (-(n : Int)) else none
        | none => none
    else if c = '+' then
      match cs with
      | [] => none
      | _ :: _ =>
        match parseDigits cs 0 with
        | some n => if n ≤ maxInt then some (n : Int) else none
        | none => none
    else
      match parseDigits (c :: cs) 0 with
      | some n => if n ≤ maxInt then some (n : Int) else none
      | none => none

/-! ## path/filepath (Unix) -/

/-- Split a path at every `'/'`. -/
def splitSlash : List Char → List (List Char)
  | [] => [[]]
  | c :: cs =>
    match splitSlash cs with
    | [] => [[c]]
    | e :: es => if c = '/' then [] :: e :: es else (c :: e) :: es

/-- One element of a path in `filepath.Clean`, against the elements kept so far
(most recent first). -/
def cleanStep (rooted : Bool) (out : List (List Char)) (e : List Char) : List (List Char) :=
  if e = [] ∨ e = ['.'] then out
  else if e = ['.', '.'] then
    match out with
    | [] => if rooted then [] else [e]
    | top :: below => if top = ['.', '.'] then e :: top :: below else below
  else e :: out

/-- Go `filepath.Clean`. -/
def Clean (path : String) : String :=
  if path = "" then "."
  else
    let rooted := path.data.head? = some '/'
    let out := ((splitSlash path.data).foldl (cleanStep rooted) []).reverse
    let body := String.mk (List.intercalate ['/'] out)
    if rooted then "/" ++ body
    else if out = [] then "." else body

/-- Go `filepath.Join`: the elements from the first non-empty one on, joined by
`'/'` and cleaned; `""` when every element is empty. -/
def Join (elem : List String) : String :=
  match elem.dropWhile (fun e => e = "") with
  | [] => ""
  | es => Clean (String.intercalate "/" es)

/-- Drop the trailing `'/'` characters of a reversed path. -/
def dropSlashes : List Char → List Char
  | [] => []
  | c :: cs => if c = '/' then dropSlashes cs else c :: cs

/-- Go `filepath.Base`: the last element of the path. -/
def Base (path : String) : String :=
  if path = "" then "."
  else
    let stripped := dropSlashes path.data.reverse
    let last := (stripped.takeWhile (fun c => c ≠ '/')).reverse
    if last = [] then "/" else String.mk last

/-! ## File system -/

/-- Regular files by path; `none` is an absent file. -/
abbrev FS := String → Option Bytes

/-- The file at `p` now holds `d`. -/
def FS.write (fs : FS) (p : String) (d : Bytes) : FS :=
  fun q => if q = p then some d else fs q

/-- No file at `p` any more. -/
def FS.remove (fs : FS) (p : String) : FS :=
  fun q => if q = p then none else fs q

/-- Go `ioutil.WriteFile`: create or truncate the file and write `data`. With
`fail` the call returns an error and the file system is left as it was. -/
def WriteFile (fail : Bool) (fs : FS) (name : String) (data : Bytes) : FS × Option IOErr :=
  if fail then (fs, some IOErr.other) else (fs.write name data, none)

/-- The library call `goutil.WriteFileAppend`: open with create and append
flags and write `data` at the end. With `fail` it returns an error and the file
system is left as it was. -/
def WriteFileAppend (fail : Bool) (fs : FS) (name : String) (data : Bytes) : FS × Option IOErr :=
  if fail then (fs, some IOErr.other)
  else (fs.write name ((fs name).getD [] ++ data), none)

/-- Go `os.Remove` on a file path; the callers drop its error. With `fail`
nothing is removed. -/
def osRemove (fail : Bool) (fs : FS) (name : String) : FS :=
  if fail then fs else fs.remove name

/-! ## Readers -/

/-- An `io.Reader`: `Read st n` is a call of `Read` with a buffer of `n` bytes;
it returns the bytes stored in `buf[:n']`, the error, and the next state. -/
structure Reader (σ : Type) where
  Read : σ → Nat → (Bytes × Option IOErr) × σ

/-- A regular file behind `bufio.NewReader`, read with a buffer at least as
large as the one of `bufio`: every call fills the buffer unless fewer bytes
remain, and the end of the file is reported by a call of its own, `0, io.EOF`.
The state is the unread rest of the file. -/
def fileReader : Reader Bytes where
  Read rest n :=
    if n = 0 then (([], none), rest)
    else
      match rest with
      | [] => (([], some IOErr.EOF), [])
      | b :: bs => (((b :: bs).take n, none), (b :: bs).drop n)

/-! ## Splitter (`splitFile`, the same text in `cfclient` and `client`) -/

/-- The name of the artifact of chunk `index`:
`fmt.Sprintf("%s/%s-%d_%s", tmpDir, uuidv4, index, filepath.Base(filename))`. -/
def smallFileName (tmpDir uuidv4 : String) (index : Nat) (filename : String) : String :=
  tmpDir ++ "/" ++ uuidv4 ++ "-" ++ Itoa index ++ "_" ++ Base filename

/-- What the splitter needs from its process: the scratch directory, the
identifier `goutil.Uuidv4()` returns, and for each chunk index whether writing
its artifact fails. -/
structure SplitEnv where
  tmpDir : String
  uuidv4 : String
  writeFail : Nat → Bool

/-- The `for` loop of `splitFile`, from reader state `r` with `index` artifacts
emitted so far: the paths sent on `pathChan` from here on, and the file system
at the end. -/
def splitLoop {σ : Type} (rd : Reader σ) (maxUploadSize : Nat) (env : SplitEnv)
    (filename : String) : Nat → σ → Nat → FS → Option (List String × FS)
  | 0, _, _, _ => none
  | fuel + 1, r, index, fs =>
    match rd.Read r maxUploadSize with
    | ((_, some _), _) => some ([], fs)
    | ((buf, none), r1) =>
      if buf.length = 0 then some ([], fs)
      else
        let index := index + 1
        let name := smallFileName env.tmpDir env.uuidv4 index filename
        match WriteFile (env.writeFail index) fs name buf with
        | (fs1, some _) => some ([], fs1)
        | (fs1, none) =>
          match splitLoop rd maxUploadSize env filename fuel r1 index fs1 with
          | none => none
          | some (paths, fs2) => some (name :: paths, fs2)

/-- Go `splitFile`: `open` makes the reader over the content of the opened file.
`none`: the loop did not end within `fuel` reads; `some none`: `os.Open` failed
and `goutil.PanicIfErr` panicked; `some (some (paths, fs))`: the paths sent on
`pathChan` before it was closed, and the file system afterwards. -/
def splitFile {σ : Type} (rd : Reader σ) (openFile : Bytes → σ) (maxUploadSize : Nat)
    (env : SplitEnv) (fuel : Nat) (filename : String) (fs : FS) :
    Option (Option (List String × FS)) :=
  match fs filename with
  | none => some none
  | some content =>
    match splitLoop rd maxUploadSize env filename fuel (openFile content) 0 fs with
    | none => none
    | some res => some (some res)

/-- Ceiling of `s / c`. -/
def ceilDiv (s c : Nat) : Nat := (s + c - 1) / c

/-- The `k`-th (0-based) block of `c` bytes of `src`. -/
def chunkAt (c : Nat) (src : Bytes) (k : Nat) : Bytes := (src.drop (k * c)).take c



/-! ## HTTP requests and responses -/

/-- A decoded `multipart/form-data` request: the text fields (name, value) and
the file parts (form name, file name, content), both in body order. -/
structure Request where
  values : List (String × String)
  files : List (String × String × Bytes)

/-- Go `r.PostFormValue(key)`: the first value of the field, `""` when absent. -/
def Request.PostFormValue (r : Request) (key : String) : String :=
  match r.values.find? (fun kv => kv.1 = key) with
  | some kv => kv.2
  | none => ""

/-- Go `r.FormFile(key)`: the content of the first file part under that form
name; `none` is `http.ErrMissingFile`. -/
def Request.FormFile (r : Request) (key : String) : Option Bytes :=
  match r.files.find? (fun f => f.1 = key) with
  | some f => some f.2.2
  | none => none

/-- An `http.ResponseWriter`: the status line once it is written, and the body
written so far. -/
structure ResponseWriter where
  status : Option Nat
  body : String
  deriving DecidableEq, Repr

/-- A response nothing was written to yet. -/
def ResponseWriter.fresh : ResponseWriter := ⟨none, ""⟩

/-- Go `w.WriteHeader(code)`; a second call does not change the status. -/
def ResponseWriter.WriteHeader (w : ResponseWriter) (statusCode : Nat) : ResponseWriter :=
  match w.status with
  | some _ => w
  | none => ⟨some statusCode, w.body⟩

/-- Go `w.Write(data)`: the first write sends status 200 unless a header was
written before; the data is appended to the body. -/
def ResponseWriter.Write (w : ResponseWriter) (data : String) : ResponseWriter :=
  ⟨some (w.status.getD 200), w.body ++ data⟩

/-- Go `renderError` (the same text in `cfserver` and `server`). -/
def renderError (w : ResponseWriter) (message : String) (statusCode : Nat) : ResponseWriter :=
  (w.WriteHeader statusCode).Write message

/-! ## Chunk receiver (`uploadFileHandler`, the same text in `cfserver` and `server`) -/

/-- The constant `maxUploadSize` of the two servers. -/
def serverMaxUploadSize : Nat := 10 * 1024 * 1024

/-- The constant `uploadPath` of the two servers. -/
def uploadPath : String := "./public"

/-- The error results of the calls one upload request makes:
`r.ParseMultipartForm` (body over the limit, or not a multipart form),
`os.MkdirAll`, `ioutil.ReadAll` on the file part, `os.Remove`, and the write
(`goutil.WriteFileAppend` or `ioutil.WriteFile`). `true` is a non-nil error. -/
structure ServerOutcome where
  parseFail : Bool
  mkdirFail : Bool
  readFail : Bool
  removeFail : Bool
  writeFail : Bool
  deriving DecidableEq, Repr

/-- Every call succeeds. -/
def ServerOutcome.ok : ServerOutcome := ⟨false, false, false, false, false⟩

/-- The destination path the handler computes from the form fields. -/
def newPathOf (dir fileName : String) : String := Join [Join [uploadPath, dir], fileName]

/-- Go `uploadFileHandler`: the response written and the file system afterwards. -/
def uploadFileHandler (o : ServerOutcome) (r : Request) (fs : FS) : ResponseWriter × FS :=
  let w := ResponseWriter.fresh
  if o.parseFail then (renderError w "FILE_TOO_BIG" 400, fs)
  else
    let fileName := r.PostFormValue "filename"
    let dir := r.PostFormValue "dir"
    if o.mkdirFail then (renderError w "INVALID_DIR" 400, fs)
    else
      let newPath := newPathOf dir fileName
      let multiindex : Int :=
        match Atoi (r.PostFormValue "multiindex") with
        | some n => n
        | none => 0
      match r.FormFile "uploadFile" with
      | none => (renderError w "INVALID_FILE" 400, fs)
      | some file =>
        if o.readFail then (renderError w "INVALID_FILE" 400, fs)
        else
          let fileBytes := file
          if 1 ≤ multiindex then
            let fs1 := if multiindex = 1 then osRemove o.removeFail fs newPath else fs
            match WriteFileAppend o.writeFail fs1 newPath fileBytes with
            | (fs2, some _) =>
              ((renderError w "WRITE_FILE_APPEND_ERROR" 500).Write "SUCCESS", fs2)
            | (fs2, none) => (w.Write "SUCCESS", fs2)
          else
            match WriteFile o.writeFail fs newPath fileBytes with
            | (fs2, _) => (w.Write "SUCCESS", fs2)

/-- The requests of a list handled one after the other, each with its own
outcomes: the responses in order and the file system at the end. -/
def serveAll : List (ServerOutcome × Request) → FS → List ResponseWriter × FS
  | [], fs => ([], fs)
  | (o, r) :: rest, fs =>
    let (w, fs1) := uploadFileHandler o r fs
    let (ws, fs2) := serveAll rest fs1
    (w :: ws, fs2)

/-- An upload request as `postFile` lays it out: one file part, then the text
fields. -/
def uploadRequest (formName fileName : String) (content : Bytes)
    (fields : List (String × String)) : Request :=
  ⟨fields, [(formName, fileName, content)]⟩

/-- The chunk requests for the payloads of a list, numbered from `start` on:
fields `filename`, `dir` and `multiindex`, the payload under `uploadFile`. -/
def chunkRequests (fileName dir : String) : Nat → List Bytes → List (ServerOutcome × Request)
  | _, [] => []
  | start, p :: ps =>
    (ServerOutcome.ok, uploadRequest "uploadFile" fileName p
      [("filename", fileName), ("dir", dir), ("multiindex", Itoa start)]) ::
      chunkRequests fileName dir (start + 1) ps

/-- An upload request with the fields `filename` and `dir`, with `multiindex`
only when `mi` gives a value for it, and the payload under `uploadFile`. -/
def fileRequest (fileName dir : String) (mi : Option String) (p : Bytes) : Request :=
  uploadRequest "uploadFile" fileName p
    (match mi with
     | none => [("filename", fileName), ("dir", dir)]
     | some s => [("filename", fileName), ("dir", dir), ("multiindex", s)])

/-! ## Chunk uploader (`postFile`, `uploadFileHandle` in `cfclient`, `uploadFile` in `client`) -/

/-- The constant `maxUploadSize` of the two clients: chunk capacity and
threshold of the chunked mode. -/
def clientMaxUploadSize : Nat := 5 * 1024 * 1024

/-- The persisted endpoint configuration. -/
structure Config where
  Host : String
  Port : String

/-- Go `Config.address`. -/
def Config.address (c : Config) : String := "http://" ++ c.Host ++ ":" ++ c.Port

/-- Go `Config.append`. -/
def Config.append (first second : String) : String :=
  match second.data with
  | [] => first ++ second
  | ch :: _ => if ch ≠ '/' then first ++ "/" ++ second else first ++ second

/-- Go `Config.uploadUrl`. -/
def Config.uploadUrl (c : Config) (path : String) : String :=
  Config.append (Config.append c.address "upload") path

/-- Go `Config.downloadUrl`. -/
def Config.downloadUrl (c : Config) (path : String) : String :=
  Config.append (Config.append c.address "files") path

/-- Assignment `fields[k] = v` on a Go `map[string]string` kept as a list of
entries with distinct keys. -/
def setField : List (String × String) → String → String → List (String × String)
  | [], k, v => [(k, v)]
  | (k1, v1) :: rest, k, v => if k1 = k then (k1, v) :: rest else (k1, v1) :: setField rest k v

/-- What `http.Post` and the reading of the response body come to: an error of
`http.Post`, or a response with its status code and its body (`none` when
`ioutil.ReadAll` fails). -/
inductive PostResult where
  | transportErr
  | response (status : Nat) (body : Option String)
  deriving DecidableEq, Repr

/-- The network and the server behind it, as a step function: the state, the
URL and the request give the result of the POST and the next state. -/
abbrev Transport (τ : Type) := τ → String → Request → PostResult × τ

/-- Go `postFile`, with the form name of the file part as a parameter (it is
the only difference between the two clients): the error returned and the state
of the transport. `os.Open` fails when there is no file at `filename`; writing
into the `bytes.Buffer` and copying the opened file into it do not fail. -/
def postFile {τ : Type} (formName : String) (net : Transport τ) (fs : FS)
    (filename targetUrl : String) (fileds : List (String × String)) (t : τ) :
    Option IOErr × τ :=
  match fs filename with
  | none => (some IOErr.other, t)
  | some content =>
    match net t targetUrl (uploadRequest formName filename content fileds) with
    | (PostResult.transportErr, t1) => (some IOErr.other, t1)
    | (PostResult.response _ none, t1) => (some IOErr.other, t1)
    | (PostResult.response _ (some _), t1) => (none, t1)

/-- The loop `for path := range pathChan` of the uploader over the paths the
splitter sent, after `index` of them: the error `goutil.PanicIfErr` panics with
(`none` when the loop ends normally) and the state of the transport. -/
def uploadLoop {τ : Type} (formName : String) (net : Transport τ) (fs : FS)
    (targetUrl : String) :
    List String → Nat → List (String × String) → τ → Option IOErr × τ
  | [], _, _, t => (none, t)
  | path :: rest, index, fields, t =>
    let index := index + 1
    let fields := setField fields "multiindex" (Itoa index)
    match postFile formName net fs path targetUrl fields t with
    | (some e, t1) => (some e, t1)
    | (none, t1) => uploadLoop formName net fs targetUrl rest index fields t1

/-- How an upload or a download ends. -/
structure Outcome (τ : Type) where
  panicked : Bool
  net : τ
  fs : FS

/-- The uploader (`uploadFileHandle` in `cfclient`, `uploadFile` in `client`;
the two differ in the form name `postFile` uses). `os.Stat` fails when there is
no file at `src`; the file system holds regular files only, so `f.IsDir()` is
false; `goutil.GetFileSize` is the length of the content. A panic ends the run
with `panicked`. The splitter goroutine is run to its end before the loop over
its paths. `none`: the splitter did not end within `fuel` reads. -/
def uploadCore {σ τ : Type} (formName : String) (cfg : Config) (env : SplitEnv)
    (maxUploadSize : Nat) (rd : Reader σ) (openFile : Bytes → σ) (fuel : Nat)
    (net : Transport τ) (src dst : String) (fs : FS) (t : τ) : Option (Outcome τ) :=
  if src.length = 0 then some ⟨true, t, fs⟩
  else
    match fs src with
    | none => some ⟨true, t, fs⟩
    | some content =>
      let filename := src
      let fileSize := content.length
      if fileSize ≤ 0 then some ⟨true, t, fs⟩
      else
        let fields := [("filename", Base filename), ("dir", dst)]
        if fileSize < maxUploadSize then
          match postFile formName net fs filename (cfg.uploadUrl dst) fields t with
          | (some _, t1) => some ⟨true, t1, fs⟩
          | (none, t1) => some ⟨false, t1, fs⟩
        else
          match splitFile rd openFile maxUploadSize env fuel filename fs with
          | none => none
          | some none => some ⟨true, t, fs⟩
          | some (some (paths, fs1)) =>
            match uploadLoop formName net fs1 (cfg.uploadUrl dst) paths 0 fields t with
            | (some _, t1) => some ⟨true, t1, fs1⟩
            | (none, t1) => some ⟨false, t1, fs1⟩

/-- A transport that answers from a script and keeps a log: each POST takes the
next result of the script (`200 SUCCESS` once the script is used up) and adds
the URL and the request to the log. -/
def scriptNet : Transport (List PostResult × List (String × Request)) :=
  fun t url req =>
    match t.1 with
    | [] => (PostResult.response 200 (some "SUCCESS"), ([], t.2 ++ [(url, req)]))
    | o :: os => (o, (os, t.2 ++ [(url, req)]))

/-- A transport that hands each request to `uploadFileHandler`, every call of
the server succeeding: the state is the file system of the server and the
responses written so far. -/
def serverNet : Transport (FS × List ResponseWriter) :=
  fun t _ req =>
    match uploadFileHandler ServerOutcome.ok req t.1 with
    | (w, fs1) => (PostResult.response (w.status.getD 200) (some w.body), (fs1, t.2 ++ [w]))

/-! ## Stream downloader (`ReadChunk`, `downloadFileHandle` in `cfclient`, `downloadFile` in `client`) -/

/-- A response body as the network delivers it: segments of bytes, each with
the error its delivery ends with. A call of `Read` returns the current segment,
or as much of it as the buffer holds; past the last segment it returns
`0, io.EOF`. -/
def bodyReader : Reader (List (Bytes × Option IOErr)) where
  Read segs n :=
    match segs with
    | [] => (([], some IOErr.EOF), [])
    | (d, e) :: rest =>
      if d.length ≤ n then ((d, e), rest)
      else ((d.take n, none), (d.drop n, e) :: rest)

/-- A body read without error: the segments in order, the end of the stream
reported with the last segment when `eofWithLast`, by a read of its own
otherwise. -/
def cleanBody : List Bytes → Bool → List (Bytes × Option IOErr)
  | [], _ => []
  | d :: ds, eofWithLast =>
    (d, if ds.isEmpty && eofWithLast then some IOErr.EOF else none) :: cleanBody ds eofWithLast

/-- Go `ReadChunk`: the chunks sent on `chanChunk` before it is closed; `none`
when the loop does not end within `fuel` reads. -/
def ReadChunk {σ : Type} (rd : Reader σ) (maxChunkSize : Nat) : Nat → σ → Option (List Bytes)
  | 0, _ => none
  | fuel + 1, r =>
    match rd.Read r maxChunkSize with
    | ((buf, err), r1) =>
      if (buf.length : Int) < 0 then some []
      else if err ≠ none ∧ err ≠ some IOErr.EOF then some []
      else if err = some IOErr.EOF then some [buf]
      else
        match ReadChunk rd maxChunkSize fuel r1 with
        | none => none
        | some chunks => some (buf :: chunks)

/-- Go `strings.LastIndex(s, sep)` for a separator of one character: the
position of its last occurrence, `-1` when there is none. -/
def LastIndex (s : String) (sep : Char) : Int :=
  s.data.enum.foldl (fun acc ic => if ic.2 = sep then (ic.1 : Int) else acc) (-1)

/-- The file name the downloader derives from the remote path. -/
def localFileName (src : String) : String :=
  let pos := LastIndex src '/'
  if 0 < pos then String.mk (src.data.drop (pos + 1).toNat) else src

/-- What `http.Get` comes to: an error, or a response with its status code,
status line and body. -/
inductive GetResult where
  | transportErr
  | response (StatusCode : Nat) (Status : String) (Body : List (Bytes × Option IOErr))

/-- The error results of the file-system calls of one download:
`goutil.DeleteFile`, `os.MkdirAll`, and `goutil.WriteFileAppend` for each chunk
(by position, from 0). -/
structure DownloadOutcome where
  deleteFail : Bool
  mkdirFail : Bool
  appendFail : Nat → Bool

/-- How a download ends: whether it panicked, the running total last computed,
and the local file system. -/
structure Downloaded where
  panicked : Bool
  total : Nat
  fs : FS

/-- The loop `for chunk := range chanChunk` of the downloader, at chunk number
`k` with running total `total`. -/
def downloadLoop (o : DownloadOutcome) (dst : String) : List Bytes → Nat → Nat → FS → Downloaded
  | [], _, total, fs => ⟨false, total, fs⟩
  | chunk :: rest, k, total, fs =>
    let total := total + chunk.length
    match WriteFileAppend (o.appendFail k) fs dst chunk with
    | (fs1, some _) => ⟨true, total, fs1⟩
    | (fs1, none) => downloadLoop o dst rest (k + 1) total fs1

/-- The downloader (`downloadFileHandle` in `cfclient`, which returns on a
status other than 200: `checkStatus`; `downloadFile` in `client`, which has no
such test). `goutil.DeleteFile` removes the file. The reader goroutine is run to
its end before the loop over its chunks. `none`: `ReadChunk` did not end within
`fuel` reads. -/
def downloadCore (checkStatus : Bool) (maxUploadSize : Nat) (fuel : Nat)
    (o : DownloadOutcome) (src dst : String) (resp : GetResult) (fs : FS) : Option Downloaded :=
  if src.length = 0 then some ⟨true, 0, fs⟩
  else
    match resp with
    | GetResult.transportErr => some ⟨true, 0, fs⟩
    | GetResult.response StatusCode _ Body =>
      if checkStatus ∧ StatusCode ≠ 200 then some ⟨false, 0, fs⟩
      else
        let filename := localFileName src
        let dst := Join [".", dst, filename]
        let fs1 := osRemove o.deleteFail fs dst
        if o.mkdirFail then some ⟨true, 0, fs1⟩
        else
          match ReadChunk bodyReader (maxUploadSize / 2) fuel Body with
          | none => none
          | some chunks => some (downloadLoop o dst chunks 0 0 fs1)

namespace cfclient

/-- The form name `cfclient.postFile` gives the file part. -/
def formName : String := "uploadFileHandle"

/-- Go `uploadFileHandle` of `cfclient`. -/
def uploadFileHandle {σ τ : Type} (cfg : Config) (env : SplitEnv) (maxUploadSize : Nat)
    (rd : Reader σ) (openFile : Bytes → σ) (fuel : Nat) (net : Transport τ) (src dst : String)
    (fs : FS) (t : τ) : Option (Outcome τ) :=
  uploadCore formName cfg env maxUploadSize rd openFile fuel net src dst fs t

/-- Go `downloadFileHandle` of `cfclient`. -/
def downloadFileHandle (maxUploadSize : Nat) (fuel : Nat) (o : DownloadOutcome)
    (src dst : String) (resp : GetResult) (fs : FS) : Option Downloaded :=
  downloadCore true maxUploadSize fuel o src dst resp fs

end cfclient

namespace client

/-- The form name `client.postFile` gives the file part. -/
def formName : String := "uploadFile"

/-- Go `uploadFile` of `client`. -/
def uploadFile {σ τ : Type} (cfg : Config) (env : SplitEnv) (maxUploadSize : Nat)
    (rd : Reader σ) (openFile : Bytes → σ) (fuel : Nat) (net : Transport τ) (src dst : String)
    (fs : FS) (t : τ) : Option (Outcome τ) :=
  uploadCore formName cfg env maxUploadSize rd openFile fuel net src dst fs t

/-- Go `downloadFile` of `client`. -/
def downloadFile (maxUploadSize : Nat) (fuel : Nat) (o : DownloadOutcome)
    (src dst : String) (resp : GetResult) (fs : FS) : Option Downloaded :=
  downloadCore false maxUploadSize fuel o src dst resp fs

end client

/-! ## Delete handler and listing (`deleteFileHandler`, `PadStr`) -/

/-- Go `s[lo:hi]` on a string; `none` is the run-time panic "slice bounds out of
range". Positions count characters, which are the bytes of the Go string for
ASCII text. -/
def sliceStr (s : String) (lo hi : Nat) : Option String :=
  if lo ≤ hi ∧ hi ≤ s.length then some (String.mk ((s.data.take hi).drop lo)) else none

/-- Go `s[lo:]` on a string; `none` is the run-time panic. -/
def sliceFrom (s : String) (lo : Nat) : Option String :=
  if lo ≤ s.length then some (String.mk (s.data.drop lo)) else none

/-- Go `os.RemoveAll(path)`: the file at `path` and every file below it are
removed. With `err` the call returns that error and nothing is removed. -/
def RemoveAll (err : Option String) (fs : FS) (path : String) : FS × Option String :=
  match err with
  | some msg => (fs, some msg)
  | none =>
    (fun q => if q = path ∨ (path ++ "/").data <+: q.data then none else fs q, none)

/-- The body of `deleteFileHandler` for a prefix of `n` characters:
`r.URL.Path[0:n] == PREFIX`, then `r.URL.Path[n+1:]`. `none` is a run-time
panic of the handler; otherwise the response and the file system afterwards. -/
def deleteWith (PREFIX : String) (n : Nat) (removeErr : Option String) (path : String)
    (fs : FS) : Option (ResponseWriter × FS) :=
  let w := ResponseWriter.fresh
  match sliceStr path 0 n with
  | none => none
  | some head =>
    if head = PREFIX then
      match sliceFrom path (n + 1) with
      | none => none
      | some deletePath =>
        if deletePath.length = 0 then some (renderError w "INVALID_URL" 400, fs)
        else
          let deletePath := Join [uploadPath, deletePath]
          match RemoveAll removeErr fs deletePath with
          | (fs1, some msg) => some (renderError w msg 500, fs1)
          | (fs1, none) => some (w.Write "SUCCESS", fs1)
    else some (renderError w "INVALID_URL" 400, fs)

namespace cfserver

/-- Go `deleteFileHandler` of `cfserver`, on the path of the request URL:
`const PREFIX = "/delete"`, the slices taken at `len(PREFIX)` and
`len(PREFIX)+1`. `removeErr` is the error `os.RemoveAll` returns, if any. -/
def deleteFileHandler (removeErr : Option String) (path : String) (fs : FS) :
    Option (ResponseWriter × FS) :=
  deleteWith "/delete" "/delete".length removeErr path fs

end cfserver

namespace server

/-- Go `deleteFileHandler` of `server`: the same handler with the positions
written out, `r.URL.Path[0:7] == "/delete"` and `r.URL.Path[8:]`. -/
def deleteFileHandler (removeErr : Option String) (path : String) (fs : FS) :
    Option (ResponseWriter × FS) :=
  deleteWith "/delete" 7 removeErr path fs

end server

/-- Go `cleanPath` of `net/http`: the path made rooted and cleaned, a trailing
`'/'` kept. -/
def cleanPath (p : String) : String :=
  if p = "" then "/"
  else
    let p := if p.data.head? = some '/' then p else "/" ++ p
    let np := Clean p
    if p.data.getLast? = some '/' ∧ np ≠ "/" then
      if p.length = np.length + 1 ∧ np.data <+: p.data then p else np ++ "/"
    else np

/-- What the default mux does with a request: it answers with a redirect to a
location, hands the request to the handler registered under a pattern, or
answers 404. -/
inductive Routed where
  | redirect (location : String)
  | handler (pattern : String)
  | notFound
  deriving DecidableEq, Repr

/-- The pattern that serves a path (`mux.handler`): the path itself when it is
registered, else the longest registered pattern ending in `'/'` that the path
starts with. -/
def muxMatch (patterns : List String) (path : String) : Option String :=
  if path ∈ patterns then some path
  else
    (patterns.filter (fun pat => pat.data.getLast? = some '/' ∧ pat.data <+: path.data)).foldl
      (fun best pat =>
        match best with
        | none => some pat
        | some b => if b.length < pat.length then some pat else some b)
      none

/-- Go `ServeMux.Handler` for a request other than CONNECT: a path that is not
registered while the path followed by `'/'` is gets a redirect there; a path
that is not clean gets a redirect to its clean form; any other path goes to the
pattern that serves it. -/
def muxRoute (patterns : List String) (path : String) : Routed :=
  let cp := cleanPath path
  if cp ∉ patterns ∧ (cp ++ "/") ∈ patterns ∧ cp.data.getLast? ≠ some '/' then
    Routed.redirect (cp ++ "/")
  else if cp ≠ path then Routed.redirect cp
  else
    match muxMatch patterns path with
    | some pat => Routed.handler pat
    | none => Routed.notFound

/-- How a GET on the delete endpoint ends: `deleteFileHandler` ran and answered,
it ran and panicked, or the request did not get to it. -/
inductive Served where
  | answered (w : ResponseWriter) (fs : FS)
  | panicked
  | elsewhere (r : Routed)

/-- A GET of `path` as `http.Get` sends it to a server with the given patterns
registered, following at most `redirects` redirects; a request the mux hands to
the pattern `/delete/` is answered by `handler`. -/
def serveGet (patterns : List String) (handler : String → FS → Option (ResponseWriter × FS)) :
    Nat → String → FS → Served
  | redirects, path, fs =>
    match muxRoute patterns path with
    | Routed.handler pat =>
      if pat = "/delete/" then
        match handler path fs with
        | some (w, fs1) => Served.answered w fs1
        | none => Served.panicked
      else Served.elsewhere (Routed.handler pat)
    | Routed.redirect location =>
      match redirects with
      | 0 => Served.elsewhere (Routed.redirect location)
      | n + 1 => serveGet patterns handler n location fs
    | Routed.notFound => Served.elsewhere Routed.notFound

namespace cfserver

/-- The patterns `main` of `cfserver` registers on the default mux. -/
def patterns : List String := ["/upload", "/delete/", "/list/", "/files/"]

/-- A delete request sent to `cfserver`. -/
def serveDelete (removeErr : Option String) (redirects : Nat) (path : String) (fs : FS) :
    Served :=
  serveGet patterns (deleteFileHandler removeErr) redirects path fs

end cfserver

namespace server

/-- The patterns `main` of `server` registers on the default mux. -/
def patterns : List String := ["/upload", "/delete/", "/files/"]

/-- A delete request sent to `server`. -/
def serveDelete (removeErr : Option String) (redirects : Nat) (path : String) (fs : FS) :
    Served :=
  serveGet patterns (deleteFileHandler removeErr) redirects path fs

end server

/-- The trailing segment of a path in the words of the specification: the text
after its last `'/'`, or the whole path when it contains no `'/'`. -/
def trailingSegment (path : String) : String :=
  String.mk (path.data.reverse.takeWhile (fun c => c ≠ '/')).reverse

/-- The loop of `PadStr`, at counter `i`: the condition `i < width-len(str)` is
evaluated again at every turn, on the string as it has grown. `none` when the
loop does not end within the fuel. -/
def padLoop : Nat → Int → String → Int → Option String
  | 0, _, _, _ => none
  | fuel + 1, i, str, width =>
    if i < width - (str.length : Int) then padLoop fuel (i + 1) (str ++ " ") width
    else some str

/-- Go `PadStr` of `cfserver`; the loop gets `width + 1` turns of fuel. -/
def PadStr (str : String) (width : Int) : Option String :=
  padLoop (width.toNat + 1) 0 str width

/-! ## Sample inputs -/

/-- A scratch directory and identifier, every artifact write succeeding. -/
def sampleEnv : SplitEnv := ⟨"/tmp/cmdfiles", "u", fun _ => false⟩

/-- A file system holding one file. -/
def oneFile (name : String) (content : Bytes) : FS :=
  fun q => if q = name then some content else none

/-- A sample endpoint. -/
def sampleConfig : Config := ⟨"localhost", "8081"⟩

/-- Every file-system call of a download succeeds. -/
def DownloadOutcome.ok : DownloadOutcome := ⟨false, false, fun _ => false⟩

/-! ## Decimal strings -/

theorem digitChar_toNat (d : Nat) (h : d < 10) : (digitChar d).toNat = 48 + d := by
  interval_cases d <;> rfl

theorem digitChar_ne_sign (d : Nat) (h : d < 10) : digitChar d ≠ '-' ∧ digitChar d ≠ '+' := by
  interval_cases d <;> decide

theorem parseDigits_digitChar (d : Nat) (h : d < 10) (cs : List Char) (acc : Nat) :
    parseDigits (digitChar d :: cs) acc = parseDigits cs (acc * 10 + d) := by
  simp [parseDigits, digitChar_toNat d h]
  omega

theorem parseDigits_formatBits (fuel : Nat) :
    ∀ (u : Nat) (acc : List Char), u < fuel →
      parseDigits (formatBits fuel u acc) 0 = parseDigits acc u := by
  induction fuel with
  | zero => intro u acc h; omega
  | succ fuel ih =>
    intro u acc h
    unfold formatBits
    split_ifs with h10
    · rw [ih (u / 10) _ (by omega), parseDigits_digitChar _ (Nat.mod_lt _ (by norm_num))]
      congr 1
      omega
    · rw [parseDigits_digitChar _ (by omega)]
      simp

theorem formatBits_head (fuel : Nat) :
    ∀ (u : Nat) (acc : List Char), u < fuel →
      ∃ d tl, d < 10 ∧ formatBits fuel u acc = digitChar d :: tl := by
  induction fuel with
  | zero => intro u acc h; omega
  | succ fuel ih =>
    intro u acc h
    unfold formatBits
    split_ifs with h10
    · exact ih (u / 10) _ (by omega)
    · exact ⟨u, acc, by omega, rfl⟩

theorem parseDigits_natToString (u : Nat) : parseDigits (natToString u).data 0 = some u := by
  simp [natToString, parseDigits_formatBits (u + 1) u [] (by omega), parseDigits]

theorem natToString_injective (u v : Nat) (h : natToString u = natToString v) : u = v := by
  have hu := parseDigits_natToString u
  rw [h, parseDigits_natToString v] at hu
  exact (Option.some.inj hu).symm

theorem Itoa_natCast (n : Nat) : Itoa (n : Int) = natToString n := by
  simp [Itoa]

theorem Atoi_Itoa (n : Nat) (h : n ≤ maxInt) : Atoi (Itoa (n : Int)) = some (n : Int) := by
  rw [Itoa_natCast]
  obtain ⟨d, tl, hd, htl⟩ := formatBits_head (n + 1) n [] (by omega)
  have hp := parseDigits_natToString n
  have hdata : (natToString n).data = digitChar d :: tl := by simp [natToString, htl]
  rw [hdata] at hp
  unfold Atoi
  rw [hdata]
  simp only [(digitChar_ne_sign d hd).1, (digitChar_ne_sign d hd).2, if_false, hp, h, if_true]

theorem smallFileName_injective (tmpDir uuidv4 filename : String) (i j : Nat)
    (h : smallFileName tmpDir uuidv4 i filename = smallFileName tmpDir uuidv4 j filename) :
    i = j := by
  unfold smallFileName at h
  have h1 := congrArg String.data h
  simp only [String.data_append, List.append_assoc] at h1
  have h2 := List.append_cancel_left (List.append_cancel_left (List.append_cancel_left
    (List.append_cancel_left h1)))
  have h3 := List.append_cancel_right h2
  rw [Itoa_natCast, Itoa_natCast] at h3
  exact natToString_injective i j (String.ext h3)

/-! ## The splitter on a file reader -/

theorem ceilDiv_pos_step (s c : Nat) (hc : 0 < c) (hs : 0 < s) :
    ceilDiv s c = ceilDiv (s - c) c + 1 := by
  unfold ceilDiv
  by_cases h : c ≤ s
  · have : s + c - 1 = (s - c + c - 1) + c := by omega
    rw [this, Nat.add_div_right _ hc]
  · have h0 : s - c = 0 := by omega
    rw [h0]
    have h1 : (0 + c - 1) / c = 0 := Nat.div_eq_of_lt (by omega)
    have h2 : (s + c - 1) / c = 1 := by
      have : s + c - 1 = (s - 1) + c := by omega
      rw [this, Nat.add_div_right _ hc, Nat.div_eq_of_lt (by omega)]
    rw [h1, h2]

theorem lt_ceilDiv_iff (s c k : Nat) (hc : 0 < c) : k < ceilDiv s c ↔ k * c < s := by
  unfold ceilDiv
  rw [Nat.lt_iff_add_one_le, Nat.le_div_iff_mul_le hc, Nat.add_mul]
  omega

theorem chunkAt_length (c : Nat) (src : Bytes) (k : Nat) :
    (chunkAt c src k).length = min c (src.length - k * c) := by
  simp [chunkAt]

theorem chunkAt_succ (c : Nat) (src : Bytes) (k : Nat) :
    chunkAt c src (k + 1) = chunkAt c (src.drop c) k := by
  simp only [chunkAt, List.drop_drop]
  congr 2
  rw [Nat.add_mul]
  omega

theorem join_chunkAt_take (c : Nat) (src : Bytes) (n : Nat) :
    ((List.range n).map (chunkAt c src)).flatten = src.take (n * c) := by
  induction n with
  | zero => simp
  | succ n ih =>
    rw [List.range_succ, List.map_append, List.flatten_append, ih]
    simp only [List.map_cons, List.map_nil, List.flatten_cons, List.flatten_nil, List.append_nil,
      chunkAt]
    rw [Nat.add_mul, Nat.one_mul, List.take_add]

theorem fileReader_Read_nil (c : Nat) (hc : 0 < c) :
    fileReader.Read [] c = (([], some IOErr.EOF), []) := by
  simp [fileReader, Nat.ne_of_gt hc]

theorem fileReader_Read_cons (c : Nat) (hc : 0 < c) (b : UInt8) (bs : Bytes) :
    fileReader.Read (b :: bs) c = (((b :: bs).take c, none), (b :: bs).drop c) := by
  simp [fileReader, Nat.ne_of_gt hc]

theorem splitLoop_fileReader (c : Nat) (hc : 0 < c) (env : SplitEnv)
    (henv : ∀ i, env.writeFail i = false) (filename : String) (fuel : Nat) :
    ∀ (rest : Bytes) (index : Nat) (fs : FS), rest.length < fuel →
      ∃ fs1, splitLoop fileReader c env filename fuel rest index fs =
          some ((List.range (ceilDiv rest.length c)).map
            (fun k => smallFileName env.tmpDir env.uuidv4 (index + 1 + k) filename), fs1) ∧
        (∀ k, k < ceilDiv rest.length c →
          fs1 (smallFileName env.tmpDir env.uuidv4 (index + 1 + k) filename) =
            some (chunkAt c rest k)) ∧
        (∀ q, (∀ k, k < ceilDiv rest.length c →
          q ≠ smallFileName env.tmpDir env.uuidv4 (index + 1 + k) filename) → fs1 q = fs q) := by
  induction fuel with
  | zero => intro rest index fs h; omega
  | succ fuel ih =>
    intro rest index fs hlen
    cases rest with
    | nil =>
      refine ⟨fs, ?_, ?_, ?_⟩
      · simp [splitLoop, fileReader_Read_nil c hc, ceilDiv, Nat.div_eq_of_lt (by omega : c - 1 < c)]
      · intro k hk
        simp [ceilDiv, Nat.div_eq_of_lt (by omega : c - 1 < c)] at hk
      · intro q _; rfl
    | cons b bs =>
      have hpos : 0 < (b :: bs).length := by simp
      have hstep := ceilDiv_pos_step (b :: bs).length c hc hpos
      have hdrop : ((b :: bs).drop c).length = (b :: bs).length - c := List.length_drop _ _
      obtain ⟨fs2, hrun, hat, hframe⟩ := ih ((b :: bs).drop c) (index + 1)
        (fs.write (smallFileName env.tmpDir env.uuidv4 (index + 1) filename) ((b :: bs).take c))
        (by rw [hdrop]; omega)
      rw [hdrop] at hrun hat hframe
      have htake : ((b :: bs).take c).length ≠ 0 := by
        rw [List.length_take]
        simp only [List.length_cons] at hpos ⊢
        omega
      refine ⟨fs2, ?_, ?_, ?_⟩
      · rw [splitLoop]
        simp only [fileReader_Read_cons c hc, if_false, htake, WriteFile, henv]
        simp only [Bool.false_eq_true, if_false]
        rw [hrun, hstep, List.range_succ_eq_map]
        simp only [List.map_cons, List.map_map, Nat.add_zero]
        congr 3
        apply List.map_congr_left
        intro k _
        simp only [Function.comp, Nat.succ_eq_add_one]
        congr 1
        omega
      · intro k hk
        rw [hstep] at hk
        cases k with
        | zero =>
          rw [Nat.add_zero, hframe]
          · simp [FS.write, chunkAt]
          · intro j _ heq
            have := smallFileName_injective _ _ _ _ _ heq
            omega
        | succ k =>
          have := hat k (by omega)
          rw [chunkAt_succ, ← this]
          congr 2
          omega
      · intro q hq
        rw [hframe q]
        · have h0 := hq 0 (by rw [hstep]; omega)
          simp only [Nat.add_zero] at h0
          simp [FS.write, h0]
        · intro k hk
          have := hq (k + 1) (by rw [hstep]; omega)
          intro heq
          apply this
          rw [heq]
          congr 1
          omega

theorem chunkAt_last_length (c : Nat) (hc : 0 < c) (src : Bytes) (hs : 0 < src.length) :
    (chunkAt c src (ceilDiv src.length c - 1)).length =
      if src.length % c = 0 then c else src.length % c := by
  have hn : 0 < ceilDiv src.length c := (lt_ceilDiv_iff _ _ _ hc).2 (by simpa using hs)
  have hlo : (ceilDiv src.length c - 1) * c < src.length :=
    (lt_ceilDiv_iff _ _ _ hc).1 (by omega)
  have hhi : ¬ (ceilDiv src.length c * c < src.length) := by
    rw [← lt_ceilDiv_iff _ _ _ hc]
    omega
  have hmul : ceilDiv src.length c * c = (ceilDiv src.length c - 1) * c + c := by
    conv_lhs => rw [show ceilDiv src.length c = (ceilDiv src.length c - 1) + 1 by omega]
    rw [Nat.add_mul, Nat.one_mul]
  rw [chunkAt_length]
  generalize hm : (ceilDiv src.length c - 1) * c = m at hlo hmul
  have hsplit : src.length = (src.length - m) + (ceilDiv src.length c - 1) * c := by omega
  by_cases hfull : src.length - m = c
  · have h0 : src.length % c = 0 := by
      rw [hsplit, hfull, Nat.add_mul_mod_self_right, Nat.mod_self]
    rw [h0, hfull]
    simp
  · have hlt : src.length - m < c := by omega
    have hmod : src.length % c = src.length - m := by
      conv_lhs => rw [hsplit]
      rw [Nat.add_mul_mod_self_right, Nat.mod_eq_of_lt hlt]
    rw [hmod]
    have : src.length - m ≠ 0 := by omega
    simp only [this, if_false]
    omega

/-! ## The chunk receiver on well-formed requests -/

theorem uploadFileHandler_chunk (r : Request) (fs : FS) (fileName dir : String) (i : Int)
    (p : Bytes) (hf : r.PostFormValue "filename" = fileName) (hd : r.PostFormValue "dir" = dir)
    (hi : Atoi (r.PostFormValue "multiindex") = some i) (h1 : 1 ≤ i)
    (hp : r.FormFile "uploadFile" = some p) :
    uploadFileHandler ServerOutcome.ok r fs =
      (⟨some 200, "SUCCESS"⟩,
        (if i = 1 then fs.remove (newPathOf dir fileName) else fs).write (newPathOf dir fileName)
          (((if i = 1 then fs.remove (newPathOf dir fileName) else fs)
            (newPathOf dir fileName)).getD [] ++ p)) := by
  simp [uploadFileHandler, ServerOutcome.ok, hf, hd, hi, hp, h1, WriteFileAppend, osRemove,
    ResponseWriter.Write, ResponseWriter.fresh]

theorem uploadFileHandler_whole (r : Request) (fs : FS) (fileName dir : String)
    (p : Bytes) (hf : r.PostFormValue "filename" = fileName) (hd : r.PostFormValue "dir" = dir)
    (hi : ∀ n, Atoi (r.PostFormValue "multiindex") = some n → n ≤ 0)
    (hp : r.FormFile "uploadFile" = some p) :
    uploadFileHandler ServerOutcome.ok r fs =
      (⟨some 200, "SUCCESS"⟩, fs.write (newPathOf dir fileName) p) := by
  have hm : ¬ (1 ≤ (match Atoi (r.PostFormValue "multiindex") with
      | some n => n
      | none => (0 : Int))) := by
    cases h : Atoi (r.PostFormValue "multiindex") with
    | none => simp
    | some n =>
      have := hi n h
      simp only
      omega
  simp [uploadFileHandler, ServerOutcome.ok, hf, hd, hp, hm, WriteFile,
    ResponseWriter.Write, ResponseWriter.fresh]

theorem chunkRequest_fields (fileName dir s : String) (p : Bytes) :
    (uploadRequest "uploadFile" fileName p
        [("filename", fileName), ("dir", dir), ("multiindex", s)]).PostFormValue "filename"
      = fileName ∧
    (uploadRequest "uploadFile" fileName p
        [("filename", fileName), ("dir", dir), ("multiindex", s)]).PostFormValue "dir" = dir ∧
    (uploadRequest "uploadFile" fileName p
        [("filename", fileName), ("dir", dir), ("multiindex", s)]).PostFormValue "multiindex"
      = s ∧
    (uploadRequest "uploadFile" fileName p
        [("filename", fileName), ("dir", dir), ("multiindex", s)]).FormFile "uploadFile"
      = some p := by
  refine ⟨?_, ?_, ?_, ?_⟩ <;>
    simp [uploadRequest, Request.PostFormValue, Request.FormFile, List.find?]

theorem FS.write_same (fs : FS) (p : String) (d : Bytes) : (fs.write p d) p = some d := by
  simp [FS.write]

theorem FS.remove_same (fs : FS) (p : String) : (fs.remove p) p = none := by
  simp [FS.remove]

theorem serveAll_chunkRequests_step (fileName dir : String) (start : Nat) (p : Bytes)
    (ps : List Bytes) (fs : FS) (h1 : 1 ≤ start) (hmax : start ≤ maxInt) :
    serveAll (chunkRequests fileName dir start (p :: ps)) fs =
      (⟨some 200, "SUCCESS"⟩ ::
        (serveAll (chunkRequests fileName dir (start + 1) ps)
          ((if start = 1 then fs.remove (newPathOf dir fileName) else fs).write
            (newPathOf dir fileName)
            (((if start = 1 then fs.remove (newPathOf dir fileName) else fs)
              (newPathOf dir fileName)).getD [] ++ p))).1,
       (serveAll (chunkRequests fileName dir (start + 1) ps)
          ((if start = 1 then fs.remove (newPathOf dir fileName) else fs).write
            (newPathOf dir fileName)
            (((if start = 1 then fs.remove (newPathOf dir fileName) else fs)
              (newPathOf dir fileName)).getD [] ++ p))).2) := by
  obtain ⟨hf, hd, hi, hp⟩ := chunkRequest_fields fileName dir (Itoa (start : Int)) p
  have hstep := uploadFileHandler_chunk _ fs fileName dir (start : Int) p hf hd
    (by rw [hi]; exact Atoi_Itoa start hmax) (by exact_mod_cast h1) hp
  simp only [chunkRequests, serveAll, hstep]
  have hcast : ((start : Int) = 1) = (start = 1) := by
    apply propext
    constructor
    · intro h; exact_mod_cast h
    · intro h; exact_mod_cast h
  simp only [hcast]

theorem serveAll_chunkRequests_append (fileName dir : String) (ps : List Bytes) :
    ∀ (start : Nat) (fs : FS) (c : Bytes), 2 ≤ start → start + ps.length ≤ maxInt + 1 →
      fs (newPathOf dir fileName) = some c →
      (serveAll (chunkRequests fileName dir start ps) fs).2 (newPathOf dir fileName) =
          some (c ++ ps.flatten) ∧
        ∀ w ∈ (serveAll (chunkRequests fileName dir start ps) fs).1,
          w = (⟨some 200, "SUCCESS"⟩ : ResponseWriter) := by
  induction ps with
  | nil =>
    intro start fs c _ _ hc
    simp [chunkRequests, serveAll, hc]
  | cons p ps ih =>
    intro start fs c h2 hmax hc
    simp only [List.length_cons] at hmax
    rw [serveAll_chunkRequests_step fileName dir start p ps fs (by omega) (by omega)]
    have hne : ¬ start = 1 := by omega
    simp only [hne, if_false, hc, Option.getD_some]
    obtain ⟨h1, h2⟩ := ih (start + 1)
      (fs.write (newPathOf dir fileName) (c ++ p)) (c ++ p) (by omega) (by omega)
      (FS.write_same _ _ _)
    refine ⟨?_, ?_⟩
    · rw [h1]
      simp
    · intro w hw
      rcases List.mem_cons.1 hw with h | h
      · exact h
      · exact h2 w h

theorem fileRequest_fields (fileName dir : String) (mi : Option String) (p : Bytes) :
    (fileRequest fileName dir mi p).PostFormValue "filename" = fileName ∧
    (fileRequest fileName dir mi p).PostFormValue "dir" = dir ∧
    (fileRequest fileName dir mi p).PostFormValue "multiindex" = mi.getD "" ∧
    (fileRequest fileName dir mi p).FormFile "uploadFile" = some p := by
  cases mi <;>
    simp [fileRequest, uploadRequest, Request.PostFormValue, Request.FormFile, List.find?]

theorem Atoi_empty : Atoi "" = none := by decide

theorem uploadFileHandler_fileRequest_whole (fileName dir : String) (mi : Option String)
    (h : ∀ s, mi = some s → ∀ n, Atoi s = some n → n ≤ 0) (p : Bytes) (fs : FS) :
    uploadFileHandler ServerOutcome.ok (fileRequest fileName dir mi p) fs =
      (⟨some 200, "SUCCESS"⟩, fs.write (newPathOf dir fileName) p) := by
  obtain ⟨hf, hd, hi, hp⟩ := fileRequest_fields fileName dir mi p
  apply uploadFileHandler_whole _ fs fileName dir p hf hd _ hp
  intro n hn
  rw [hi] at hn
  cases mi with
  | none => simp [Atoi_empty] at hn
  | some s => exact h s rfl n hn

theorem uploadFileHandler_fileRequest_chunk (fileName dir s : String) (i : Int)
    (hs : Atoi s = some i) (h1 : 1 ≤ i) (p : Bytes) (fs : FS) :
    uploadFileHandler ServerOutcome.ok (fileRequest fileName dir (some s) p) fs =
      (⟨some 200, "SUCCESS"⟩,
        (if i = 1 then fs.remove (newPathOf dir fileName) else fs).write (newPathOf dir fileName)
          (((if i = 1 then fs.remove (newPathOf dir fileName) else fs)
            (newPathOf dir fileName)).getD [] ++ p)) := by
  obtain ⟨hf, hd, hi, hp⟩ := fileRequest_fields fileName dir (some s) p
  exact uploadFileHandler_chunk _ fs fileName dir i p hf hd (by rw [hi]; exact hs) h1 hp

theorem FS.write_write (fs : FS) (p : String) (d e : Bytes) :
    (fs.write p d).write p e = fs.write p e := by
  funext q
  simp only [FS.write]
  split_ifs <;> rfl

/-! ## The uploader on a scripted transport -/

theorem postFile_scriptNet_ok (formName : String) (fs : FS) (path url : String) (d : Bytes)
    (fields : List (String × String)) (script : List PostResult)
    (log : List (String × Request)) (hd : fs path = some d)
    (hscript : ∀ o ∈ script, ∃ st b, o = PostResult.response st (some b)) :
    postFile formName scriptNet fs path url fields (script, log) =
      (none, (script.tail, log ++ [(url, uploadRequest formName path d fields)])) := by
  cases script with
  | nil => simp [postFile, hd, scriptNet]
  | cons o os =>
    obtain ⟨st, b, hb⟩ := hscript o (List.mem_cons_self _ _)
    subst hb
    simp [postFile, hd, scriptNet]

theorem postFile_scriptNet_fails (formName : String) (fs : FS) (path url : String)
    (fields : List (String × String)) (bad : PostResult) (later : List PostResult)
    (log : List (String × Request))
    (hbad : fs path = none ∨ bad = PostResult.transportErr ∨
      ∃ st, bad = PostResult.response st none) :
    (postFile formName scriptNet fs path url fields (bad :: later, log)).1 = some IOErr.other ∧
      (postFile formName scriptNet fs path url fields (bad :: later, log)).2.2.length ≤
        log.length + 1 := by
  cases hfs : fs path with
  | none => simp [postFile, hfs]
  | some d =>
    rcases hbad with h | h | ⟨st, h⟩
    · rw [hfs] at h; cases h
    · subst h; simp [postFile, hfs, scriptNet]
    · subst h; simp [postFile, hfs, scriptNet]

theorem setField_multiindex_base (a b v : String) :
    setField [("filename", a), ("dir", b)] "multiindex" v =
      [("filename", a), ("dir", b), ("multiindex", v)] := by
  simp [setField]

theorem setField_multiindex_again (a b v0 v : String) :
    setField [("filename", a), ("dir", b), ("multiindex", v0)] "multiindex" v =
      [("filename", a), ("dir", b), ("multiindex", v)] := by
  simp [setField]

theorem uploadLoop_scriptNet_ok (formName url a b : String) (fs : FS) (nm : Nat → String)
    (pl : Nat → Bytes) (n : Nat) :
    ∀ (index : Nat) (fields : List (String × String)) (script : List PostResult)
      (log : List (String × Request)),
      (∀ k, k < n → fs (nm (index + k)) = some (pl (index + k))) →
      (∀ o ∈ script, ∃ st b, o = PostResult.response st (some b)) →
      (fields = [("filename", a), ("dir", b)] ∨
        ∃ v0, fields = [("filename", a), ("dir", b), ("multiindex", v0)]) →
      uploadLoop formName scriptNet fs url ((List.range n).map (fun k => nm (index + k)))
          index fields (script, log) =
        (none, (script.drop n, log ++ (List.range n).map (fun k =>
          (url, uploadRequest formName (nm (index + k)) (pl (index + k))
            [("filename", a), ("dir", b), ("multiindex", Itoa ((index + k + 1 : Nat) : Int))])))) := by
  induction n with
  | zero =>
    intro index fields script log _ _ _
    simp [uploadLoop]
  | succ n ih =>
    intro index fields script log hfs hscript hfields
    have hset : setField fields "multiindex" (Itoa ((index + 1 : Nat) : Int)) =
        [("filename", a), ("dir", b), ("multiindex", Itoa ((index + 1 : Nat) : Int))] := by
      rcases hfields with h | ⟨v0, h⟩
      · rw [h, setField_multiindex_base]
      · rw [h, setField_multiindex_again]
    have h0 := hfs 0 (by omega)
    simp only [Nat.add_zero] at h0
    have htail : ∀ o ∈ script.tail, ∃ st b, o = PostResult.response st (some b) :=
      fun o ho => hscript o (List.mem_of_mem_tail ho)
    have hih := ih (index + 1)
      [("filename", a), ("dir", b), ("multiindex", Itoa ((index + 1 : Nat) : Int))]
      script.tail
      (log ++ [(url, uploadRequest formName (nm index) (pl index)
        [("filename", a), ("dir", b), ("multiindex", Itoa ((index + 1 : Nat) : Int))])])
      (fun k hk => by
        have := hfs (k + 1) (by omega)
        rw [show index + 1 + k = index + (k + 1) by omega]
        exact this)
      htail (Or.inr ⟨_, rfl⟩)
    rw [List.range_succ_eq_map]
    simp only [List.map_cons, List.map_map, Nat.add_zero, uploadLoop]
    rw [hset, postFile_scriptNet_ok formName fs (nm index) url (pl index) _ script log h0
      hscript]
    simp only
    have hfun : ((fun k => nm (index + k)) ∘ Nat.succ) = fun k => nm (index + 1 + k) := by
      funext k
      simp only [Function.comp, Nat.succ_eq_add_one]
      congr 1
      omega
    rw [hfun, hih]
    have hdrop : List.drop n script.tail = List.drop (n + 1) script := by
      cases script <;> simp
    rw [hdrop]
    refine Prod.ext rfl (Prod.ext rfl ?_)
    simp only [List.append_assoc, List.singleton_append]
    congr 2
    apply List.map_congr_left
    intro k _
    simp only [Function.comp, Nat.succ_eq_add_one]
    rw [show index + 1 + k = index + (k + 1) by omega]

theorem postFile_scriptNet_head (formName : String) (fs : FS) (path url : String) (d : Bytes)
    (fields : List (String × String)) (st : Nat) (b : String) (rest : List PostResult)
    (log : List (String × Request)) (hd : fs path = some d) :
    postFile formName scriptNet fs path url fields
        (PostResult.response st (some b) :: rest, log) =
      (none, (rest, log ++ [(url, uploadRequest formName path d fields)])) := by
  simp [postFile, hd, scriptNet]

theorem uploadLoop_scriptNet_aborts (formName url : String) (fs : FS) (path : String)
    (post : List String) (bad : PostResult) (later : List PostResult)
    (hbad : fs path = none ∨ bad = PostResult.transportErr ∨
      ∃ st, bad = PostResult.response st none) (pre : List String) :
    ∀ (index : Nat) (fields : List (String × String)) (outs : List PostResult)
      (log : List (String × Request)),
      (∀ q ∈ pre, fs q ≠ none) → outs.length = pre.length →
      (∀ o ∈ outs, ∃ st b, o = PostResult.response st (some b)) →
      (uploadLoop formName scriptNet fs url (pre ++ path :: post) index fields
          (outs ++ bad :: later, log)).1 = some IOErr.other ∧
        (uploadLoop formName scriptNet fs url (pre ++ path :: post) index fields
          (outs ++ bad :: later, log)).2.2.length ≤ log.length + pre.length + 1 := by
  induction pre with
  | nil =>
    intro index fields outs log _ hlen _
    have houts : outs = [] := List.length_eq_zero.1 (by simpa using hlen)
    subst houts
    obtain ⟨h1, h2⟩ := postFile_scriptNet_fails formName fs path url
      (setField fields "multiindex" (Itoa ((index + 1 : Nat) : Int))) bad later log hbad
    simp only [List.nil_append, uploadLoop, List.length_nil, Nat.add_zero]
    cases hp : postFile formName scriptNet fs path url
        (setField fields "multiindex" (Itoa ((index + 1 : Nat) : Int))) (bad :: later, log) with
    | mk e t1 =>
      rw [hp] at h1 h2
      simp only at h1 h2
      subst h1
      exact ⟨rfl, h2⟩
  | cons q pre ih =>
    intro index fields outs log hpre hlen houts
    cases outs with
    | nil => simp at hlen
    | cons o outs =>
      obtain ⟨st, b, ho⟩ := houts o (List.mem_cons_self _ _)
      subst ho
      cases hq : fs q with
      | none => exact absurd hq (hpre q (List.mem_cons_self _ _))
      | some d =>
        obtain ⟨h1, h2⟩ := ih (index + 1)
          (setField fields "multiindex" (Itoa ((index + 1 : Nat) : Int))) outs
          (log ++ [(url, uploadRequest formName q d
            (setField fields "multiindex" (Itoa ((index + 1 : Nat) : Int))))])
          (fun r hr => hpre r (List.mem_cons_of_mem _ hr))
          (by simpa using hlen)
          (fun o ho => houts o (List.mem_cons_of_mem _ ho))
        simp only [List.cons_append, uploadLoop,
          postFile_scriptNet_head formName fs q url d _ st b _ log hq]
        simp only [List.append_eq]
        refine ⟨h1, ?_⟩
        simp only [List.length_append, List.length_cons, List.length_nil] at h2 ⊢
        omega

/-! ## The downloader on a body read without error -/

theorem bodyReader_Read_nil (n : Nat) :
    bodyReader.Read [] n = (([], some IOErr.EOF), []) := rfl

theorem bodyReader_Read_cons (n : Nat) (d : Bytes) (e : Option IOErr)
    (rest : List (Bytes × Option IOErr)) :
    bodyReader.Read ((d, e) :: rest) n =
      if d.length ≤ n then ((d, e), rest) else ((d.take n, none), (d.drop n, e) :: rest) := rfl

theorem ReadChunk_cleanBody (n : Nat) (hn : 0 < n) (e : Bool) (fuel : Nat) :
    ∀ segs : List Bytes, segs.flatten.length + segs.length < fuel →
      ∃ chunks, ReadChunk bodyReader n fuel (cleanBody segs e) = some chunks ∧
        chunks ≠ [] ∧ (∀ ch ∈ chunks, ch.length ≤ n) ∧ chunks.flatten = segs.flatten := by
  induction fuel with
  | zero => intro segs h; omega
  | succ fuel ih =>
    intro segs hlen
    cases segs with
    | nil =>
      refine ⟨[[]], ?_, by simp, by simp, by simp⟩
      simp [ReadChunk, cleanBody, bodyReader_Read_nil]
    | cons d ds =>
      simp only [List.flatten_cons, List.length_append, List.length_cons] at hlen
      by_cases hd : d.length ≤ n
      · by_cases hflag : (ds.isEmpty && e) = true
        · refine ⟨[d], ?_, by simp, by simpa using hd, ?_⟩
          · simp [ReadChunk, cleanBody, bodyReader_Read_cons, hd, hflag]
          · have hds : ds = [] := by
              simp only [Bool.and_eq_true, List.isEmpty_iff] at hflag
              exact hflag.1
            simp [hds]
        · obtain ⟨chunks, hrun, _, hle, hflat⟩ := ih ds (by omega)
          refine ⟨d :: chunks, ?_, by simp, ?_, ?_⟩
          · simp [ReadChunk, cleanBody, bodyReader_Read_cons, hd, hflag, hrun]
          · intro ch hch
            rcases List.mem_cons.1 hch with h | h
            · rw [h]; exact hd
            · exact hle ch h
          · simp [hflat]
      · obtain ⟨chunks, hrun, _, hle, hflat⟩ := ih (d.drop n :: ds) (by
          simp only [List.flatten_cons, List.length_append, List.length_cons, List.length_drop]
          omega)
        refine ⟨d.take n :: chunks, ?_, by simp, ?_, ?_⟩
        · have hstate : (d.drop n, if (ds.isEmpty && e) = true then some IOErr.EOF else none) ::
              cleanBody ds e = cleanBody (d.drop n :: ds) e := by
            simp [cleanBody]
          simp only [ReadChunk, cleanBody, bodyReader_Read_cons, hd, if_false]
          rw [hstate, hrun]
          simp
        · intro ch hch
          rcases List.mem_cons.1 hch with h | h
          · rw [h, List.length_take]; omega
          · exact hle ch h
        · simp only [List.flatten_cons, hflat, ← List.append_assoc, List.take_append_drop]

theorem downloadLoop_ok (dst : String) (chunks : List Bytes) :
    ∀ (k total : Nat) (fs : FS),
      (downloadLoop DownloadOutcome.ok dst chunks k total fs).panicked = false ∧
      (downloadLoop DownloadOutcome.ok dst chunks k total fs).total =
        total + chunks.flatten.length ∧
      (chunks ≠ [] → (downloadLoop DownloadOutcome.ok dst chunks k total fs).fs dst =
        some ((fs dst).getD [] ++ chunks.flatten)) := by
  induction chunks with
  | nil => intro k total fs; simp [downloadLoop]
  | cons ch rest ih =>
    intro k total fs
    obtain ⟨h1, h2, h3⟩ := ih (k + 1) (total + ch.length)
      (fs.write dst ((fs dst).getD [] ++ ch))
    simp only [downloadLoop, DownloadOutcome.ok, WriteFileAppend, Bool.false_eq_true, if_false]
    simp only [DownloadOutcome.ok] at h1 h2 h3
    refine ⟨h1, ?_, fun _ => ?_⟩
    · rw [h2]
      simp only [List.flatten_cons, List.length_append]
      omega
    · cases rest with
      | nil => simp [downloadLoop, FS.write_same]
      | cons r rs =>
        rw [h3 (by simp), FS.write_same]
        simp

/-! ## The delete handler and `PadStr` -/

theorem deleteFileHandler_variants (removeErr : Option String) (path : String) (fs : FS) :
    server.deleteFileHandler removeErr path fs = cfserver.deleteFileHandler removeErr path fs :=
  rfl

theorem deleteFileHandler_no_segment (removeErr : Option String) (fs : FS) :
    cfserver.deleteFileHandler removeErr "/delete/" fs =
      some (⟨some 400, "INVALID_URL"⟩, fs) := by
  rfl

theorem String.length_ne_zero_of_ne_empty (seg : String) (hseg : seg ≠ "") : seg.length ≠ 0 := by
  intro h
  apply hseg
  apply String.ext
  exact List.length_eq_zero.1 h

theorem deleteFileHandler_segment (seg : String) (hseg : seg ≠ "") (fs : FS) :
    cfserver.deleteFileHandler none ("/delete/" ++ seg) fs =
      some (⟨some 200, "SUCCESS"⟩, (RemoveAll none fs (Join [uploadPath, seg])).1) := by
  have hlen := String.length_ne_zero_of_ne_empty seg hseg
  have hdata : ("/delete/" ++ seg).data =
      '/' :: 'd' :: 'e' :: 'l' :: 'e' :: 't' :: 'e' :: '/' :: seg.data := rfl
  have hlen8 : ("/delete/" ++ seg).length = 8 + seg.length := by
    rw [String.length_append]
    rfl
  have h7 : "/delete".length = 7 := rfl
  have hslice : sliceStr ("/delete/" ++ seg) 0 "/delete".length = some "/delete" := by
    unfold sliceStr
    rw [h7, hlen8, hdata]
    have hc : 0 ≤ 7 ∧ 7 ≤ 8 + seg.length := by omega
    rw [if_pos hc]
    rfl
  have hfrom : sliceFrom ("/delete/" ++ seg) ("/delete".length + 1) = some seg := by
    unfold sliceFrom
    rw [h7, hlen8, hdata]
    have hc : 7 + 1 ≤ 8 + seg.length := by omega
    rw [if_pos hc]
    rfl
  unfold cfserver.deleteFileHandler deleteWith
  simp only [hslice, hfrom, hlen, if_true, if_false, RemoveAll]
  rfl

theorem padLoop_eq (width : Int) (fuel : Nat) :
    ∀ (i : Int) (str : String),
      ((width - (str.length : Int) - i).toNat + 1) / 2 < fuel →
      padLoop fuel i str width =
        some (str ++ String.mk
          (List.replicate (((width - (str.length : Int) - i).toNat + 1) / 2) ' ')) := by
  induction fuel with
  | zero => intro i str h; omega
  | succ fuel ih =>
    intro i str hfuel
    unfold padLoop
    split_ifs with hlt
    · have hlen : ((str ++ " ").length : Int) = (str.length : Int) + 1 := by
        have h1 : " ".length = 1 := rfl
        rw [String.length_append, h1]
        push_cast
        rfl
      have hk : ((width - (str.length : Int) - i).toNat + 1) / 2 =
          ((width - ((str ++ " ").length : Int) - (i + 1)).toNat + 1) / 2 + 1 := by
        rw [hlen]
        omega
      rw [ih (i + 1) (str ++ " ") (by omega), hk, List.replicate_succ]
      congr 1
      apply String.ext
      simp
    · have hz : ((width - (str.length : Int) - i).toNat + 1) / 2 = 0 := by omega
      rw [hz]
      congr 1
      apply String.ext
      simp

theorem PadStr_eq (str : String) (width : Int) :
    PadStr str width =
      some (str ++ String.mk
        (List.replicate (((width - (str.length : Int)).toNat + 1) / 2) ' ')) := by
  have h := padLoop_eq width (width.toNat + 1) 0 str (by omega)
  simpa [PadStr] using h

/-! ## The file name the downloader derives -/

theorem foldl_enumFrom_absent (sep : Char) (l : List Char) :
    ∀ (n : Nat) (acc : Int), sep ∉ l →
      (List.enumFrom n l).foldl (fun acc ic => if ic.2 = sep then (ic.1 : Int) else acc) acc
        = acc := by
  induction l with
  | nil => intro n acc _; rfl
  | cons c cs ih =>
    intro n acc h
    have hc : c ≠ sep := fun e => h (e ▸ List.mem_cons_self _ _)
    have hcs : sep ∉ cs := fun e => h (List.mem_cons_of_mem _ e)
    simp only [List.enumFrom_cons, List.foldl_cons, hc, if_false]
    exact ih (n + 1) acc hcs

theorem foldl_enumFrom_last (sep : Char) (post : List Char) (hpost : sep ∉ post)
    (pre : List Char) :
    ∀ (n : Nat) (acc : Int),
      (List.enumFrom n (pre ++ sep :: post)).foldl
        (fun acc ic => if ic.2 = sep then (ic.1 : Int) else acc) acc = ((n + pre.length : Nat) : Int) := by
  induction pre with
  | nil =>
    intro n acc
    simp only [List.nil_append, List.enumFrom_cons, List.foldl_cons, if_true, List.length_nil,
      Nat.add_zero]
    exact foldl_enumFrom_absent sep post (n + 1) n hpost
  | cons c cs ih =>
    intro n acc
    simp only [List.cons_append, List.enumFrom_cons, List.foldl_cons, List.length_cons]
    rw [ih (n + 1)]
    congr 1
    omega

theorem exists_last_occurrence (sep : Char) (l : List Char) (h : sep ∈ l) :
    ∃ pre post, l = pre ++ sep :: post ∧ sep ∉ post := by
  induction l with
  | nil => simp at h
  | cons c cs ih =>
    by_cases hcs : sep ∈ cs
    · obtain ⟨pre, post, hl, hp⟩ := ih hcs
      exact ⟨c :: pre, post, by rw [hl]; rfl, hp⟩
    · rcases List.mem_cons.1 h with hc | hc
      · exact ⟨[], cs, by rw [hc]; rfl, hcs⟩
      · exact absurd hc hcs

theorem takeWhile_append_stop (p : Char → Bool) (c : Char) (hc : p c = false) (b : List Char)
    (a : List Char) (ha : ∀ x ∈ a, p x = true) :
    (a ++ c :: b).takeWhile p = a := by
  induction a with
  | nil => simp [List.takeWhile, hc]
  | cons x xs ih =>
    have hx := ha x (List.mem_cons_self _ _)
    simp only [List.cons_append, List.takeWhile_cons, hx, if_true]
    rw [ih (fun y hy => ha y (List.mem_cons_of_mem _ hy))]

theorem LastIndex_absent (s : String) (h : '/' ∉ s.data) : LastIndex s '/' = -1 :=
  foldl_enumFrom_absent '/' s.data 0 (-1) h

theorem LastIndex_last (s : String) (pre post : List Char) (hs : s.data = pre ++ '/' :: post)
    (hpost : '/' ∉ post) : LastIndex s '/' = (pre.length : Int) := by
  unfold LastIndex
  rw [hs, List.enum, foldl_enumFrom_last '/' post hpost pre 0 (-1)]
  simp

theorem trailingSegment_absent (s : String) (h : '/' ∉ s.data) : trailingSegment s = s := by
  unfold trailingSegment
  apply String.ext
  have : s.data.reverse.takeWhile (fun c => decide (c ≠ '/')) = s.data.reverse := by
    rw [List.takeWhile_eq_self_iff]
    intro x hx
    have hx1 : x ∈ s.data := List.mem_reverse.1 hx
    have : x ≠ '/' := fun e => h (e ▸ hx1)
    simpa using this
  simp only [this, List.reverse_reverse]

theorem trailingSegment_last (s : String) (pre post : List Char)
    (hs : s.data = pre ++ '/' :: post) (hpost : '/' ∉ post) :
    trailingSegment s = String.mk post := by
  unfold trailingSegment
  rw [hs]
  have hrev : (pre ++ '/' :: post).reverse = post.reverse ++ '/' :: pre.reverse := by simp
  rw [hrev, takeWhile_append_stop _ '/' (by simp) pre.reverse post.reverse (by
    intro x hx
    have hx1 : x ∈ post := List.mem_reverse.1 hx
    have : x ≠ '/' := fun e => hpost (e ▸ hx1)
    simpa using this)]
  simp

theorem splitSlash_ne_nil (l : List Char) : splitSlash l ≠ [] := by
  cases l with
  | nil => simp [splitSlash]
  | cons c cs =>
    unfold splitSlash
    split
    · simp
    · split_ifs <;> simp

theorem splitSlash_cons_of (c : Char) (cs e : List Char) (es : List (List Char))
    (h : splitSlash cs = e :: es) :
    splitSlash (c :: cs) = if c = '/' then [] :: e :: es else (c :: e) :: es := by
  rw [splitSlash, h]

theorem splitSlash_append_slash (y : List Char) (x : List Char) :
    splitSlash (x ++ '/' :: y) = splitSlash x ++ splitSlash y := by
  induction x with
  | nil =>
    cases hy : splitSlash y with
    | nil => exact absurd hy (splitSlash_ne_nil y)
    | cons e es =>
      rw [List.nil_append, splitSlash_cons_of '/' y e es hy]
      rfl
  | cons c cs ih =>
    cases hcs : splitSlash cs with
    | nil => exact absurd hcs (splitSlash_ne_nil cs)
    | cons e es =>
      rw [hcs] at ih
      rw [List.cons_append, splitSlash_cons_of c _ e (es ++ splitSlash y) ih,
        splitSlash_cons_of c cs e es hcs]
      split_ifs <;> rfl

theorem cleanStep_empty (rooted : Bool) (out : List (List Char)) : cleanStep rooted out [] = out := by
  simp [cleanStep]

theorem Clean_congr (s1 s2 : String) (h1 : s1 ≠ "") (h2 : s2 ≠ "")
    (hh : s1.data.head? = s2.data.head?)
    (hf : ∀ r, (splitSlash s1.data).foldl (cleanStep r) [] =
      (splitSlash s2.data).foldl (cleanStep r) []) : Clean s1 = Clean s2 := by
  unfold Clean
  simp only [h1, h2, if_false, hh, hf]

theorem Join_leading_slash (dst : String) (post : List Char) :
    Join [".", dst, String.mk ('/' :: post)] = Join [".", dst, String.mk post] := by
  have hd1 : (String.intercalate "/" [".", dst, String.mk ('/' :: post)]).data =
      ('.' :: '/' :: dst.data) ++ '/' :: ('/' :: post) := by
    simp [String.intercalate, String.intercalate.go]
  have hd2 : (String.intercalate "/" [".", dst, String.mk post]).data =
      ('.' :: '/' :: dst.data) ++ '/' :: post := by
    simp [String.intercalate, String.intercalate.go]
  have hj : ∀ f : String, Join [".", dst, f] = Clean (String.intercalate "/" [".", dst, f]) := by
    intro f
    simp [Join, List.dropWhile]
  rw [hj, hj]
  apply Clean_congr
  · intro h
    have := congrArg String.data h
    rw [hd1] at this
    simp at this
  · intro h
    have := congrArg String.data h
    rw [hd2] at this
    simp at this
  · rw [hd1, hd2]
    rfl
  · intro r
    have hsl : splitSlash ('/' :: post) = [] :: splitSlash post :=
      splitSlash_append_slash post []
    rw [hd1, hd2, splitSlash_append_slash, splitSlash_append_slash, hsl]
    simp only [List.foldl_append, List.foldl_cons, cleanStep_empty]

theorem localFileName_absent (src : String) (h : '/' ∉ src.data) : localFileName src = src := by
  simp [localFileName, LastIndex_absent src h]

theorem localFileName_leading (src : String) (post : List Char) (hs : src.data = '/' :: post)
    (hpost : '/' ∉ post) : localFileName src = src := by
  have := LastIndex_last src [] post hs hpost
  simp [localFileName, this]

theorem localFileName_inner (src : String) (c : Char) (pre post : List Char)
    (hs : src.data = (c :: pre) ++ '/' :: post) (hpost : '/' ∉ post) :
    localFileName src = String.mk post := by
  have hpos := LastIndex_last src (c :: pre) post hs hpost
  have h0 : (0 : Int) < ((c :: pre).length : Int) := by
    simp only [List.length_cons]
    omega
  have hn : (((c :: pre).length : Int) + 1).toNat = (c :: pre).length + 1 := by omega
  simp only [localFileName, hpos, h0, if_true, hn, hs]
  congr 1
  rw [show (c :: pre) ++ '/' :: post = ((c :: pre) ++ ['/']) ++ post by simp]
  exact List.drop_left' (by simp)

/-! ## Claims -/

/-- C1: on a reader that fills the buffer unless fewer bytes remain, with chunk
capacity `c > 0` and every artifact write succeeding, `splitFile` over a source
of size `S` returns once it has `S + 1` reads of fuel or more, and sends exactly
`ceil(S / c)` artifact paths, the one of index `k + 1` at position `k`; artifact
`k + 1` holds bytes `k * c ..` of the source, is non-empty and at most `c` bytes
long, every artifact but the last is exactly `c` bytes long, the last one is
`S mod c` bytes long (`c` when `S mod c = 0`), and the artifacts concatenated in
index order are the source. -/
theorem splitFile_chunks (c : Nat) (hc : 0 < c) (env : SplitEnv)
    (henv : ∀ i, env.writeFail i = false) (filename : String) (fs : FS) (src : Bytes)
    (hsrc : fs filename = some src) (fuel : Nat) (hfuel : src.length < fuel) :
    ∃ fs1,
      splitFile fileReader id c env fuel filename fs =
        some (some ((List.range (ceilDiv src.length c)).map
          (fun k => smallFileName env.tmpDir env.uuidv4 (k + 1) filename), fs1)) ∧
      (∀ k, k < ceilDiv src.length c →
        fs1 (smallFileName env.tmpDir env.uuidv4 (k + 1) filename) = some (chunkAt c src k) ∧
        0 < (chunkAt c src k).length ∧ (chunkAt c src k).length ≤ c) ∧
      (∀ k, k + 1 < ceilDiv src.length c → (chunkAt c src k).length = c) ∧
      (0 < src.length → (chunkAt c src (ceilDiv src.length c - 1)).length =
        if src.length % c = 0 then c else src.length % c) ∧
      ((List.range (ceilDiv src.length c)).map (chunkAt c src)).flatten = src := by
  obtain ⟨fs1, hrun, hat, _⟩ := splitLoop_fileReader c hc env henv filename fuel src 0 fs hfuel
  refine ⟨fs1, ?_, ?_, ?_, ?_, ?_⟩
  · simp only [splitFile, hsrc, id, hrun]
    congr 4
    funext k
    congr 1
    omega
  · intro k hk
    have hk1 := (lt_ceilDiv_iff _ _ _ hc).1 hk
    refine ⟨?_, ?_, ?_⟩
    · rw [← hat k hk]
      congr 2
      omega
    · rw [chunkAt_length]
      omega
    · rw [chunkAt_length]
      omega
  · intro k hk
    have hk1 := (lt_ceilDiv_iff _ _ _ hc).1 hk
    rw [chunkAt_length, Nat.add_mul] at *
    omega
  · exact chunkAt_last_length c hc src
  · rw [join_chunkAt_take]
    apply List.take_of_length_le
    have := (lt_ceilDiv_iff src.length c (ceilDiv src.length c) hc).not.1 (by omega)
    omega


/-- Witness of C1: a 5-byte file split with capacity 2. -/
theorem splitFile_chunks_witness :
    ∃ fs1,
      splitFile fileReader id 2 sampleEnv 6 "/home/a.bin"
          (oneFile "/home/a.bin" [1, 2, 3, 4, 5]) =
        some (some ((List.range (ceilDiv ([1, 2, 3, 4, 5] : Bytes).length 2)).map
          (fun k => smallFileName sampleEnv.tmpDir sampleEnv.uuidv4 (k + 1) "/home/a.bin"),
            fs1)) ∧
      (∀ k, k < ceilDiv ([1, 2, 3, 4, 5] : Bytes).length 2 →
        fs1 (smallFileName sampleEnv.tmpDir sampleEnv.uuidv4 (k + 1) "/home/a.bin") =
          some (chunkAt 2 [1, 2, 3, 4, 5] k) ∧
        0 < (chunkAt 2 [1, 2, 3, 4, 5] k).length ∧ (chunkAt 2 [1, 2, 3, 4, 5] k).length ≤ 2) ∧
      (∀ k, k + 1 < ceilDiv ([1, 2, 3, 4, 5] : Bytes).length 2 →
        (chunkAt 2 [1, 2, 3, 4, 5] k).length = 2) ∧
      (0 < ([1, 2, 3, 4, 5] : Bytes).length →
        (chunkAt 2 [1, 2, 3, 4, 5] (ceilDiv ([1, 2, 3, 4, 5] : Bytes).length 2 - 1)).length =
          if ([1, 2, 3, 4, 5] : Bytes).length % 2 = 0 then 2
          else ([1, 2, 3, 4, 5] : Bytes).length % 2) ∧
      ((List.range (ceilDiv ([1, 2, 3, 4, 5] : Bytes).length 2)).map
        (chunkAt 2 [1, 2, 3, 4, 5])).flatten = [1, 2, 3, 4, 5] :=
  splitFile_chunks 2 (by decide) sampleEnv (fun _ => rfl) "/home/a.bin"
    (oneFile "/home/a.bin" [1, 2, 3, 4, 5]) [1, 2, 3, 4, 5] (by decide) 6 (by decide)

/-- C2: for `N ≥ 1` payloads (`N` a Go `int`), whatever the destination held
before, handling the chunk requests with `multiindex` 1, 2, ..., `N` in that
order, every call succeeding, answers each with `200 SUCCESS` and leaves the
destination file equal to the payloads concatenated in order. -/
theorem upload_chunks_in_order (fileName dir : String) (ps : List Bytes)
    (hN : 1 ≤ ps.length) (hmax : ps.length ≤ maxInt) (fs : FS) :
    (serveAll (chunkRequests fileName dir 1 ps) fs).2 (newPathOf dir fileName) =
        some ps.flatten ∧
      ∀ w ∈ (serveAll (chunkRequests fileName dir 1 ps) fs).1,
        w = (⟨some 200, "SUCCESS"⟩ : ResponseWriter) := by
  cases ps with
  | nil => simp at hN
  | cons p ps =>
    simp only [List.length_cons] at hmax
    rw [serveAll_chunkRequests_step fileName dir 1 p ps fs (by omega) (by omega)]
    simp only [if_true, FS.remove_same, Option.getD_none, List.nil_append]
    obtain ⟨h1, h2⟩ := serveAll_chunkRequests_append fileName dir ps 2
      ((fs.remove (newPathOf dir fileName)).write (newPathOf dir fileName) p) p (by omega)
      (by omega) (FS.write_same _ _ _)
    refine ⟨?_, ?_⟩
    · rw [h1]
      simp
    · intro w hw
      rcases List.mem_cons.1 hw with h | h
      · exact h
      · exact h2 w h


/-- Witness of C2: two chunks onto a destination that held one byte. -/
theorem upload_chunks_in_order_witness :
    (serveAll (chunkRequests "a.txt" "d" 1 [[1, 2], [3]]) (oneFile "public/d/a.txt" [9])).2
        (newPathOf "d" "a.txt") = some ([[1, 2], [3]] : List Bytes).flatten ∧
      ∀ w ∈ (serveAll (chunkRequests "a.txt" "d" 1 [[1, 2], [3]])
          (oneFile "public/d/a.txt" [9])).1,
        w = (⟨some 200, "SUCCESS"⟩ : ResponseWriter) :=
  upload_chunks_in_order "a.txt" "d" [[1, 2], [3]] (by decide) (by decide)
    (oneFile "public/d/a.txt" [9])

/-- C4: two whole-file submissions to the same path one after the other (the
`multiindex` field absent, or a value `Atoi` rejects, or one it reads as 0 or
less), first with payload `a` then with `b`, every call succeeding, leave the
destination holding exactly `b`, whatever it held before; and handling the same
whole-file request twice leaves the same file system as handling it once. -/
theorem whole_file_twice (fileName dir : String) (mi1 mi2 : Option String)
    (h1 : ∀ s, mi1 = some s → ∀ n, Atoi s = some n → n ≤ 0)
    (h2 : ∀ s, mi2 = some s → ∀ n, Atoi s = some n → n ≤ 0) (a b : Bytes) (fs : FS) :
    (uploadFileHandler ServerOutcome.ok (fileRequest fileName dir mi2 b)
        (uploadFileHandler ServerOutcome.ok (fileRequest fileName dir mi1 a) fs).2).2
        (newPathOf dir fileName) = some b ∧
      (uploadFileHandler ServerOutcome.ok (fileRequest fileName dir mi1 a)
        (uploadFileHandler ServerOutcome.ok (fileRequest fileName dir mi1 a) fs).2).2 =
        (uploadFileHandler ServerOutcome.ok (fileRequest fileName dir mi1 a) fs).2 := by
  simp only [uploadFileHandler_fileRequest_whole fileName dir mi1 h1,
    uploadFileHandler_fileRequest_whole fileName dir mi2 h2, FS.write_same, FS.write_write,
    and_self]


/-- Witness of C4: a request without `multiindex`, then one with `multiindex` 0. -/
theorem whole_file_twice_witness :
    (uploadFileHandler ServerOutcome.ok (fileRequest "a.txt" "d" (some "0") [2])
        (uploadFileHandler ServerOutcome.ok (fileRequest "a.txt" "d" none [1])
          (oneFile "public/d/a.txt" [9])).2).2 (newPathOf "d" "a.txt") = some [2] ∧
      (uploadFileHandler ServerOutcome.ok (fileRequest "a.txt" "d" none [1])
        (uploadFileHandler ServerOutcome.ok (fileRequest "a.txt" "d" none [1])
          (oneFile "public/d/a.txt" [9])).2).2 =
        (uploadFileHandler ServerOutcome.ok (fileRequest "a.txt" "d" none [1])
          (oneFile "public/d/a.txt" [9])).2 :=
  whole_file_twice "a.txt" "d" none (some "0") (fun _ hs => nomatch hs)
    (fun s hs n hn => by
      cases hs
      have h0 : Atoi "0" = some 0 := by decide
      rw [h0] at hn
      cases hn
      decide)
    [1] [2] (oneFile "public/d/a.txt" [9])

/-- C5, the claim as stated fails for chunk index 1: with payload `[7]` and no
file at the destination, the request with `multiindex` 1 handled twice leaves
the destination holding `[7]`, not the content after the first request followed
by `[7]` again. -/
theorem chunk_one_twice_not_duplicated :
    (uploadFileHandler ServerOutcome.ok (fileRequest "a.txt" "" (some "1") [7])
        (uploadFileHandler ServerOutcome.ok (fileRequest "a.txt" "" (some "1") [7])
          (fun _ => none)).2).2 "public/a.txt" = some [7] ∧
      (uploadFileHandler ServerOutcome.ok (fileRequest "a.txt" "" (some "1") [7])
        (uploadFileHandler ServerOutcome.ok (fileRequest "a.txt" "" (some "1") [7])
          (fun _ => none)).2).2 (newPathOf "" "a.txt") ≠
        some (((uploadFileHandler ServerOutcome.ok (fileRequest "a.txt" "" (some "1") [7])
          (fun _ => none)).2 (newPathOf "" "a.txt")).getD [] ++ [7]) := by
  decide

/-- C5 as amended: a chunk request whose `multiindex` the handler reads as
`i ≥ 2`, handled twice in succession with every call succeeding, leaves the
destination holding its prior content (nothing when absent) followed by the
payload twice; a request it reads as index 1, handled twice, leaves the
destination holding the payload once. -/
theorem chunk_twice (fileName dir s : String) (i : Int) (hs : Atoi s = some i) (p : Bytes)
    (fs : FS) :
    (2 ≤ i →
      (uploadFileHandler ServerOutcome.ok (fileRequest fileName dir (some s) p) fs).2
          (newPathOf dir fileName) = some ((fs (newPathOf dir fileName)).getD [] ++ p) ∧
        (uploadFileHandler ServerOutcome.ok (fileRequest fileName dir (some s) p)
          (uploadFileHandler ServerOutcome.ok (fileRequest fileName dir (some s) p) fs).2).2
          (newPathOf dir fileName) =
            some ((fs (newPathOf dir fileName)).getD [] ++ p ++ p)) ∧
    (i = 1 →
      (uploadFileHandler ServerOutcome.ok (fileRequest fileName dir (some s) p) fs).2
          (newPathOf dir fileName) = some p ∧
        (uploadFileHandler ServerOutcome.ok (fileRequest fileName dir (some s) p)
          (uploadFileHandler ServerOutcome.ok (fileRequest fileName dir (some s) p) fs).2).2
          (newPathOf dir fileName) = some p) := by
  constructor
  · intro h2
    have hne : ¬ i = 1 := by omega
    simp only [uploadFileHandler_fileRequest_chunk fileName dir s i hs (by omega), hne,
      if_false, FS.write_same, Option.getD_some, and_self]
  · intro h1
    simp only [uploadFileHandler_fileRequest_chunk fileName dir s i hs (by omega), h1,
      if_true, FS.write_same, FS.remove_same, Option.getD_none, List.nil_append, and_self]


/-- Witness of C5 as amended: the chunk of index 2 handled twice. -/
theorem chunk_twice_witness :
    ((2 : Int) ≤ 2 →
      (uploadFileHandler ServerOutcome.ok (fileRequest "a.txt" "d" (some "2") [7])
          (oneFile "public/d/a.txt" [1])).2 (newPathOf "d" "a.txt") =
          some ((oneFile "public/d/a.txt" [1] (newPathOf "d" "a.txt")).getD [] ++ [7]) ∧
        (uploadFileHandler ServerOutcome.ok (fileRequest "a.txt" "d" (some "2") [7])
          (uploadFileHandler ServerOutcome.ok (fileRequest "a.txt" "d" (some "2") [7])
            (oneFile "public/d/a.txt" [1])).2).2 (newPathOf "d" "a.txt") =
            some ((oneFile "public/d/a.txt" [1] (newPathOf "d" "a.txt")).getD [] ++ [7] ++ [7])) ∧
    ((2 : Int) = 1 →
      (uploadFileHandler ServerOutcome.ok (fileRequest "a.txt" "d" (some "2") [7])
          (oneFile "public/d/a.txt" [1])).2 (newPathOf "d" "a.txt") = some [7] ∧
        (uploadFileHandler ServerOutcome.ok (fileRequest "a.txt" "d" (some "2") [7])
          (uploadFileHandler ServerOutcome.ok (fileRequest "a.txt" "d" (some "2") [7])
            (oneFile "public/d/a.txt" [1])).2).2 (newPathOf "d" "a.txt") = some [7]) :=
  chunk_twice "a.txt" "d" "2" 2 (by decide) [7] (oneFile "public/d/a.txt" [1])

/-- C6, the handler at a failing write: a chunk request (index 1) whose
`goutil.WriteFileAppend` fails is answered with status 500 and the body
`WRITE_FILE_APPEND_ERRORSUCCESS`, the success marker after the error token; a
whole-file request whose `ioutil.WriteFile` fails is answered `200 SUCCESS`. -/
theorem upload_write_failure_response :
    (uploadFileHandler ⟨false, false, false, false, true⟩
        (fileRequest "a.txt" "" (some "1") [7]) (fun _ => none)).1 =
        ⟨some 500, "WRITE_FILE_APPEND_ERRORSUCCESS"⟩ ∧
      (uploadFileHandler ⟨false, false, false, false, true⟩
        (fileRequest "a.txt" "" none [7]) (fun _ => none)).1 = ⟨some 200, "SUCCESS"⟩ ∧
      (uploadFileHandler ⟨false, false, false, false, true⟩
        (fileRequest "a.txt" "" none [7]) (fun _ => none)).2 "public/a.txt" = none := by
  decide

/-- C7, the claim as stated fails for a non-2xx response: with two chunks to
send and the first POST answered `500 WRITE_FILE_APPEND_ERROR`, `postFile`
returns no error, the uploader does not panic and both requests are issued. -/
theorem non2xx_response_does_not_abort :
    (cfclient.uploadFileHandle sampleConfig sampleEnv 2 fileReader id 4 scriptNet
        "/home/a.bin" "" (oneFile "/home/a.bin" [1, 2, 3])
        ([PostResult.response 500 (some "WRITE_FILE_APPEND_ERROR")], [])).map
        (fun o => (o.panicked, o.net.2.length)) = some (false, 2) ∧
      (postFile cfclient.formName scriptNet (oneFile "/tmp/cmdfiles/u-1_a.bin" [1, 2])
        "/tmp/cmdfiles/u-1_a.bin" "http://localhost:8081/upload" []
        ([PostResult.response 500 (some "WRITE_FILE_APPEND_ERROR")], [])).1 = none := by
  decide

/-- C7 as amended: in the loop of the uploader over the chunk paths, when the
POSTs before the `k`-th were answered (with any status) and the `k`-th fails
because the chunk file cannot be opened, because `http.Post` returns an error or
because the response body cannot be read, `postFile` returns an error, the loop
ends in the panic of `goutil.PanicIfErr`, and at most `k` requests were issued:
request `k + 1` is never sent. -/
theorem uploadLoop_aborts (formName url : String) (fs : FS) (pre : List String)
    (path : String) (post : List String) (index : Nat) (fields : List (String × String))
    (outs : List PostResult) (bad : PostResult) (later : List PostResult)
    (log : List (String × Request))
    (hpre : ∀ q ∈ pre, fs q ≠ none) (hlen : outs.length = pre.length)
    (houts : ∀ o ∈ outs, ∃ st b, o = PostResult.response st (some b))
    (hbad : fs path = none ∨ bad = PostResult.transportErr ∨
      ∃ st, bad = PostResult.response st none) :
    (∀ f l, (postFile formName scriptNet fs path url f (bad :: later, l)).1 =
        some IOErr.other) ∧
      (uploadLoop formName scriptNet fs url (pre ++ path :: post) index fields
        (outs ++ bad :: later, log)).1 = some IOErr.other ∧
      (uploadLoop formName scriptNet fs url (pre ++ path :: post) index fields
        (outs ++ bad :: later, log)).2.2.length ≤ log.length + pre.length + 1 :=
  ⟨fun f l => (postFile_scriptNet_fails formName fs path url f bad later l hbad).1,
    uploadLoop_scriptNet_aborts formName url fs path post bad later hbad pre index fields outs
      log hpre hlen houts⟩


/-- Witness of C7 as amended: three chunks, the first two artifacts present,
the first POST answered, the second failing with a transport error. -/
theorem uploadLoop_aborts_witness :
    (∀ f l, (postFile "uploadFile" scriptNet
        ((oneFile "/tmp/cmdfiles/u-1_a.bin" [1]).write "/tmp/cmdfiles/u-2_a.bin" [2]) "/tmp/cmdfiles/u-2_a.bin"
        "http://localhost:8081/upload" f (PostResult.transportErr :: [], l)).1 =
        some IOErr.other) ∧
      (uploadLoop "uploadFile" scriptNet ((oneFile "/tmp/cmdfiles/u-1_a.bin" [1]).write "/tmp/cmdfiles/u-2_a.bin" [2])
        "http://localhost:8081/upload"
        (["/tmp/cmdfiles/u-1_a.bin"] ++ "/tmp/cmdfiles/u-2_a.bin" :: ["/tmp/cmdfiles/u-3_a.bin"])
        0 [("filename", "a.bin"), ("dir", "")]
        ([PostResult.response 200 (some "SUCCESS")] ++ PostResult.transportErr :: [], [])).1 =
          some IOErr.other ∧
      (uploadLoop "uploadFile" scriptNet ((oneFile "/tmp/cmdfiles/u-1_a.bin" [1]).write "/tmp/cmdfiles/u-2_a.bin" [2])
        "http://localhost:8081/upload"
        (["/tmp/cmdfiles/u-1_a.bin"] ++ "/tmp/cmdfiles/u-2_a.bin" :: ["/tmp/cmdfiles/u-3_a.bin"])
        0 [("filename", "a.bin"), ("dir", "")]
        ([PostResult.response 200 (some "SUCCESS")] ++ PostResult.transportErr :: [],
          [])).2.2.length ≤
        ([] : List (String × Request)).length + ["/tmp/cmdfiles/u-1_a.bin"].length + 1 :=
  uploadLoop_aborts "uploadFile" "http://localhost:8081/upload"
    ((oneFile "/tmp/cmdfiles/u-1_a.bin" [1]).write "/tmp/cmdfiles/u-2_a.bin" [2]) ["/tmp/cmdfiles/u-1_a.bin"]
    "/tmp/cmdfiles/u-2_a.bin" ["/tmp/cmdfiles/u-3_a.bin"] 0 [("filename", "a.bin"), ("dir", "")]
    [PostResult.response 200 (some "SUCCESS")] PostResult.transportErr [] []
    (by
      intro q hq
      rw [List.mem_singleton] at hq
      subst hq
      decide)
    rfl
    (by
      intro o ho
      rw [List.mem_singleton] at ho
      exact ⟨200, "SUCCESS", ho⟩)
    (Or.inr (Or.inl rfl))

/-- C8: for a source file of size `S > 0`, chunk capacity and threshold `c > 0`
(5 MiB in the code), every artifact write succeeding and every POST answered,
the uploader does not panic. When `S < c` it issues exactly one POST: its one
file part carries the whole file, and its text fields are `filename` and `dir`
and no other (in any order), so there is no `multiindex` field. When `S ≥ c` it
issues exactly `ceil(S / c)` POSTs, whose file parts are, in order, the paths
the splitter sent; the `k`-th POST carries chunk `k` under the artifact name
that holds the decimal string of `k` between `-` and `_`, and its text fields
are `filename`, `dir` and `multiindex`, the latter equal to the decimal string
of `k`. -/
theorem upload_requests (formName : String) (cfg : Config) (env : SplitEnv)
    (henv : ∀ i, env.writeFail i = false) (c : Nat) (hc : 0 < c) (src dst : String)
    (content : Bytes) (fs : FS) (hsrc : fs src = some content) (hname : src.length ≠ 0)
    (hS : 0 < content.length) (script : List PostResult)
    (hscript : ∀ o ∈ script, ∃ st b, o = PostResult.response st (some b))
    (fuel : Nat) (hfuel : content.length < fuel) :
    ∃ out, uploadCore formName cfg env c fileReader id fuel scriptNet src dst fs (script, []) =
        some out ∧ out.panicked = false ∧
      (content.length < c →
        ∃ r, out.net.2 = [(cfg.uploadUrl dst, r)] ∧
          r.files = [(formName, src, content)] ∧
          r.values.Perm [("filename", Base src), ("dir", dst)] ∧
          ∀ v, ("multiindex", v) ∉ r.values) ∧
      (c ≤ content.length →
        ∃ paths fs1, splitFile fileReader id c env fuel src fs = some (some (paths, fs1)) ∧
          out.net.2.map (fun ur => ur.2.files.map (fun f => f.2.1)) =
            paths.map (fun path => [path]) ∧
          out.net.2.length = ceilDiv content.length c ∧
          ∀ k, k < ceilDiv content.length c →
            ∃ r, out.net.2[k]? = some (cfg.uploadUrl dst, r) ∧
              r.files = [(formName,
                env.tmpDir ++ "/" ++ env.uuidv4 ++ "-" ++ Itoa ((k + 1 : Nat) : Int) ++ "_" ++
                  Base src,
                chunkAt c content k)] ∧
              r.values.Perm [("filename", Base src), ("dir", dst),
                ("multiindex", Itoa ((k + 1 : Nat) : Int))]) := by
  have hS0 : ¬ content.length ≤ 0 := by omega
  by_cases hlt : content.length < c
  · refine ⟨⟨false, (script.tail, [(cfg.uploadUrl dst, uploadRequest formName src content
      [("filename", Base src), ("dir", dst)])]), fs⟩, ?_, rfl, fun _ => ?_, fun h => ?_⟩
    · simp only [uploadCore, hname, if_false, hsrc, hS0, hlt, if_true,
        postFile_scriptNet_ok formName fs src (cfg.uploadUrl dst) content _ script [] hsrc
          hscript, List.nil_append]
    · refine ⟨_, rfl, rfl, List.Perm.refl _, ?_⟩
      intro v hv
      simp [uploadRequest] at hv
    · omega
  · obtain ⟨fs1, hrun, hat, _⟩ :=
      splitLoop_fileReader c hc env henv src fuel content 0 fs hfuel
    have hloop := uploadLoop_scriptNet_ok formName (cfg.uploadUrl dst) (Base src) dst fs1
      (fun k => smallFileName env.tmpDir env.uuidv4 (k + 1) src) (chunkAt c content)
      (ceilDiv content.length c) 0 [("filename", Base src), ("dir", dst)] script []
      (fun k hk => by
        have := hat k hk
        simp only [Nat.zero_add]
        rw [← this]
        congr 2
        omega)
      hscript (Or.inl rfl)
    simp only [Nat.zero_add, List.nil_append] at hloop
    have hpaths : (List.range (ceilDiv content.length c)).map
        (fun k => smallFileName env.tmpDir env.uuidv4 (0 + 1 + k) src) =
        (List.range (ceilDiv content.length c)).map
          (fun k => smallFileName env.tmpDir env.uuidv4 (k + 1) src) := by
      apply List.map_congr_left
      intro k _
      congr 1
      omega
    rw [hpaths] at hrun
    have hsplit : splitFile fileReader id c env fuel src fs =
        some (some ((List.range (ceilDiv content.length c)).map
          (fun k => smallFileName env.tmpDir env.uuidv4 (k + 1) src), fs1)) := by
      simp only [splitFile, hsrc, id, hrun]
    refine ⟨⟨false, (script.drop (ceilDiv content.length c),
      (List.range (ceilDiv content.length c)).map (fun k =>
        (cfg.uploadUrl dst, uploadRequest formName
          (smallFileName env.tmpDir env.uuidv4 (k + 1) src) (chunkAt c content k)
          [("filename", Base src), ("dir", dst),
            ("multiindex", Itoa ((k + 1 : Nat) : Int))]))), fs1⟩, ?_, rfl,
      fun h => absurd h hlt, fun _ => ⟨_, fs1, hsplit, ?_, ?_, ?_⟩⟩
    · simp only [uploadCore, hname, if_false, hsrc, hS0, hlt, hsplit, hloop]
    · simp only [List.map_map]
      apply List.map_congr_left
      intro k _
      rfl
    · simp only [List.length_map, List.length_range]
    · intro k hk
      refine ⟨uploadRequest formName (smallFileName env.tmpDir env.uuidv4 (k + 1) src)
        (chunkAt c content k)
        [("filename", Base src), ("dir", dst), ("multiindex", Itoa ((k + 1 : Nat) : Int))],
        ?_, rfl, List.Perm.refl _⟩
      simp only [List.getElem?_map, List.getElem?_range hk, Option.map_some']

/-- Witness of C8: a 5-byte file with capacity and threshold 2. -/
theorem upload_requests_witness :
    ∃ out, uploadCore "uploadFile" sampleConfig sampleEnv 2 fileReader id 6 scriptNet
        "/home/a.bin" "d" (oneFile "/home/a.bin" [1, 2, 3, 4, 5]) ([], []) = some out ∧
      out.panicked = false ∧
      (([1, 2, 3, 4, 5] : Bytes).length < 2 →
        ∃ r, out.net.2 = [(sampleConfig.uploadUrl "d", r)] ∧
          r.files = [("uploadFile", "/home/a.bin", [1, 2, 3, 4, 5])] ∧
          r.values.Perm [("filename", Base "/home/a.bin"), ("dir", "d")] ∧
          ∀ v, ("multiindex", v) ∉ r.values) ∧
      (2 ≤ ([1, 2, 3, 4, 5] : Bytes).length →
        ∃ paths fs1, splitFile fileReader id 2 sampleEnv 6 "/home/a.bin"
            (oneFile "/home/a.bin" [1, 2, 3, 4, 5]) = some (some (paths, fs1)) ∧
          out.net.2.map (fun ur => ur.2.files.map (fun f => f.2.1)) =
            paths.map (fun path => [path]) ∧
          out.net.2.length = ceilDiv ([1, 2, 3, 4, 5] : Bytes).length 2 ∧
          ∀ k, k < ceilDiv ([1, 2, 3, 4, 5] : Bytes).length 2 →
            ∃ r, out.net.2[k]? = some (sampleConfig.uploadUrl "d", r) ∧
              r.files = [("uploadFile",
                sampleEnv.tmpDir ++ "/" ++ sampleEnv.uuidv4 ++ "-" ++
                  Itoa ((k + 1 : Nat) : Int) ++ "_" ++ Base "/home/a.bin",
                chunkAt 2 [1, 2, 3, 4, 5] k)] ∧
              r.values.Perm [("filename", Base "/home/a.bin"), ("dir", "d"),
                ("multiindex", Itoa ((k + 1 : Nat) : Int))]) :=
  upload_requests "uploadFile" sampleConfig sampleEnv (fun _ => rfl) 2 (by decide)
    "/home/a.bin" "d" [1, 2, 3, 4, 5] (oneFile "/home/a.bin" [1, 2, 3, 4, 5]) (by decide)
    (by decide) (by decide) [] (fun _ ho => nomatch ho) 6 (by decide)

/-- C3, the uploader of `cfclient` against the receiver: a 1-byte file (below
the threshold of 5 MiB) is sent in one request, a 5-byte file with chunk
capacity 2 in three, and every request is answered `400 INVALID_FILE`, the
destination staying absent, because `postFile` names the file part
`uploadFileHandle` while the handler looks up `uploadFile`; the uploader of
`client` on the same inputs is answered `200 SUCCESS` and the destination ends
equal to the file. -/
theorem cfclient_upload_invalid_file :
    (cfclient.uploadFileHandle sampleConfig sampleEnv clientMaxUploadSize fileReader id 2
        serverNet "/home/a.bin" "" (oneFile "/home/a.bin" [65]) ((fun _ => none), [])).map
        (fun o => (o.panicked, o.net.2, o.net.1 "public/a.bin")) =
        some (false, [⟨some 400, "INVALID_FILE"⟩], none) ∧
      (cfclient.uploadFileHandle sampleConfig sampleEnv 2 fileReader id 6
        serverNet "/home/a.bin" "" (oneFile "/home/a.bin" [1, 2, 3, 4, 5])
        ((fun _ => none), [])).map
        (fun o => (o.panicked, o.net.2, o.net.1 "public/a.bin")) =
        some (false, [⟨some 400, "INVALID_FILE"⟩, ⟨some 400, "INVALID_FILE"⟩,
          ⟨some 400, "INVALID_FILE"⟩], none) ∧
      (client.uploadFile sampleConfig sampleEnv clientMaxUploadSize fileReader id 2
        serverNet "/home/a.bin" "" (oneFile "/home/a.bin" [65]) ((fun _ => none), [])).map
        (fun o => (o.panicked, o.net.2, o.net.1 "public/a.bin")) =
        some (false, [⟨some 200, "SUCCESS"⟩], some [65]) ∧
      (client.uploadFile sampleConfig sampleEnv 2 fileReader id 6
        serverNet "/home/a.bin" "" (oneFile "/home/a.bin" [1, 2, 3, 4, 5])
        ((fun _ => none), [])).map
        (fun o => (o.panicked, o.net.2, o.net.1 "public/a.bin")) =
        some (false, [⟨some 200, "SUCCESS"⟩, ⟨some 200, "SUCCESS"⟩, ⟨some 200, "SUCCESS"⟩],
          some [1, 2, 3, 4, 5]) := by
  refine ⟨by decide, by decide, by decide, by decide⟩

/-- C9, the downloader of `client` at a 404 response: it has no test of the
status, so it removes the local file `a.txt` that held `[1, 2, 3]` and writes
the 3 bytes of the error body in its place; the downloader of `cfclient` on the
same input returns with the local file as it was. -/
theorem client_download_non2xx_overwrites :
    (client.downloadFile clientMaxUploadSize 3 DownloadOutcome.ok "a.txt" ""
        (GetResult.response 404 "404 Not Found" (cleanBody [[52, 48, 52]] false))
        (oneFile "a.txt" [1, 2, 3])).map (fun r => (r.panicked, r.total, r.fs "a.txt")) =
        some (false, 3, some [52, 48, 52]) ∧
      (cfclient.downloadFileHandle clientMaxUploadSize 3 DownloadOutcome.ok "a.txt" ""
        (GetResult.response 404 "404 Not Found" (cleanBody [[52, 48, 52]] false))
        (oneFile "a.txt" [1, 2, 3])).map (fun r => (r.panicked, r.total, r.fs "a.txt")) =
        some (false, 0, some [1, 2, 3]) := by
  decide

/-- C10: for a response with status 200 whose body arrives in any segments and
is read without error (the end of the stream reported with the last bytes or by
a read of its own), with a chunk size `c / 2 > 0` (`c` is 5 MiB in the code),
every file-system call succeeding and whatever the local destination held,
`ReadChunk` returns within as many reads as there are bytes and segments plus
one, its chunks are at most `c / 2` bytes long and concatenate to the body, and
`downloadFileHandle` ends without panic with the local file holding exactly the
body and the running total equal to its length; a 0-byte body leaves an
existing 0-byte file and total 0. -/
theorem download_body (c : Nat) (hc : 0 < c / 2) (segs : List Bytes) (eofWithLast : Bool)
    (src dst Status : String) (hsrc : src.length ≠ 0) (fs : FS) (fuel : Nat)
    (hfuel : segs.flatten.length + segs.length < fuel) :
    (∃ chunks, ReadChunk bodyReader (c / 2) fuel (cleanBody segs eofWithLast) = some chunks ∧
        (∀ ch ∈ chunks, ch.length ≤ c / 2) ∧ chunks.flatten = segs.flatten) ∧
      ∃ r, cfclient.downloadFileHandle c fuel DownloadOutcome.ok src dst
          (GetResult.response 200 Status (cleanBody segs eofWithLast)) fs = some r ∧
        r.panicked = false ∧
        r.fs (Join [".", dst, localFileName src]) = some segs.flatten ∧
        r.total = segs.flatten.length := by
  obtain ⟨chunks, hrun, hne, hle, hflat⟩ := ReadChunk_cleanBody (c / 2) hc eofWithLast fuel segs hfuel
  refine ⟨⟨chunks, hrun, hle, hflat⟩, ?_⟩
  obtain ⟨h1, h2, h3⟩ := downloadLoop_ok (Join [".", dst, localFileName src]) chunks 0 0
    (osRemove false fs (Join [".", dst, localFileName src]))
  refine ⟨_, ?_, h1, ?_, ?_⟩
  · simp only [cfclient.downloadFileHandle, downloadCore, hsrc, if_false, hrun,
      DownloadOutcome.ok]
    simp
  · rw [h3 hne, hflat]
    simp [osRemove, FS.remove_same]
  · rw [h2, hflat]
    simp


/-- Witness of C10: a 4-byte body in two segments, chunk size 2. -/
theorem download_body_witness :
    (∃ chunks, ReadChunk bodyReader (4 / 2) 10 (cleanBody [[1, 2, 3], [4]] true) =
          some chunks ∧
        (∀ ch ∈ chunks, ch.length ≤ 4 / 2) ∧
        chunks.flatten = ([[1, 2, 3], [4]] : List Bytes).flatten) ∧
      ∃ r, cfclient.downloadFileHandle 4 10 DownloadOutcome.ok "d/a.txt" ""
          (GetResult.response 200 "200 OK" (cleanBody [[1, 2, 3], [4]] true))
          (oneFile "a.txt" [9]) = some r ∧
        r.panicked = false ∧
        r.fs (Join [".", "", localFileName "d/a.txt"]) =
          some ([[1, 2, 3], [4]] : List Bytes).flatten ∧
        r.total = ([[1, 2, 3], [4]] : List Bytes).flatten.length :=
  download_body 4 (by decide) [[1, 2, 3], [4]] true "d/a.txt" "" "200 OK" (by decide)
    (oneFile "a.txt" [9]) 10 (by decide)

/-- C11: a request for `/delete` or for `/delete/` sent to either server ends
with `deleteFileHandler` returning normally, the answer `400 INVALID_URL` and
the file system as it was: the handler is registered under `/delete/`, the mux
answers `/delete` with a redirect to `/delete/`, and on `/delete/` the handler
finds an empty segment. On `/delete/` followed by a non-empty segment the
handler returns normally and, `os.RemoveAll` succeeding, answers `SUCCESS` and
removes exactly the upload root joined with the segment: the file at that path
and the files below it, every other file being left as it was. The slices of the
handler fall inside `/delete/`, so positions are the same in characters and in
bytes. -/
theorem delete_requests (removeErr : Option String) (fs : FS) (seg : String)
    (hseg : seg ≠ "") :
    (cfserver.serveDelete removeErr 10 "/delete" fs =
        Served.answered ⟨some 400, "INVALID_URL"⟩ fs ∧
      cfserver.serveDelete removeErr 10 "/delete/" fs =
        Served.answered ⟨some 400, "INVALID_URL"⟩ fs ∧
      server.serveDelete removeErr 10 "/delete" fs =
        Served.answered ⟨some 400, "INVALID_URL"⟩ fs ∧
      server.serveDelete removeErr 10 "/delete/" fs =
        Served.answered ⟨some 400, "INVALID_URL"⟩ fs) ∧
    (cfserver.deleteFileHandler removeErr "/delete/" fs =
        some (⟨some 400, "INVALID_URL"⟩, fs) ∧
      server.deleteFileHandler removeErr "/delete/" fs =
        some (⟨some 400, "INVALID_URL"⟩, fs)) ∧
    ∃ fs1,
      cfserver.deleteFileHandler none ("/delete/" ++ seg) fs =
        some (⟨some 200, "SUCCESS"⟩, fs1) ∧
      server.deleteFileHandler none ("/delete/" ++ seg) fs =
        some (⟨some 200, "SUCCESS"⟩, fs1) ∧
      ∀ q, fs1 q =
        if q = Join [uploadPath, seg] ∨ (Join [uploadPath, seg] ++ "/").data <+: q.data
        then none else fs q := by
  refine ⟨⟨rfl, rfl, rfl, rfl⟩, ⟨rfl, rfl⟩, ⟨_, deleteFileHandler_segment seg hseg fs,
    deleteFileHandler_segment seg hseg fs, fun q => rfl⟩⟩

/-- Witness of C11: the segment `a.txt`, with a file beside it. -/
theorem delete_requests_witness :
    (cfserver.serveDelete none 10 "/delete"
          ((oneFile "public/a.txt" [1]).write "public/b.txt" [2]) =
        Served.answered ⟨some 400, "INVALID_URL"⟩
          ((oneFile "public/a.txt" [1]).write "public/b.txt" [2]) ∧
      cfserver.serveDelete none 10 "/delete/"
          ((oneFile "public/a.txt" [1]).write "public/b.txt" [2]) =
        Served.answered ⟨some 400, "INVALID_URL"⟩
          ((oneFile "public/a.txt" [1]).write "public/b.txt" [2]) ∧
      server.serveDelete none 10 "/delete"
          ((oneFile "public/a.txt" [1]).write "public/b.txt" [2]) =
        Served.answered ⟨some 400, "INVALID_URL"⟩
          ((oneFile "public/a.txt" [1]).write "public/b.txt" [2]) ∧
      server.serveDelete none 10 "/delete/"
          ((oneFile "public/a.txt" [1]).write "public/b.txt" [2]) =
        Served.answered ⟨some 400, "INVALID_URL"⟩
          ((oneFile "public/a.txt" [1]).write "public/b.txt" [2])) ∧
    (cfserver.deleteFileHandler none "/delete/"
          ((oneFile "public/a.txt" [1]).write "public/b.txt" [2]) =
        some (⟨some 400, "INVALID_URL"⟩,
          (oneFile "public/a.txt" [1]).write "public/b.txt" [2]) ∧
      server.deleteFileHandler none "/delete/"
          ((oneFile "public/a.txt" [1]).write "public/b.txt" [2]) =
        some (⟨some 400, "INVALID_URL"⟩,
          (oneFile "public/a.txt" [1]).write "public/b.txt" [2])) ∧
    ∃ fs1,
      cfserver.deleteFileHandler none ("/delete/" ++ "a.txt")
          ((oneFile "public/a.txt" [1]).write "public/b.txt" [2]) =
        some (⟨some 200, "SUCCESS"⟩, fs1) ∧
      server.deleteFileHandler none ("/delete/" ++ "a.txt")
          ((oneFile "public/a.txt" [1]).write "public/b.txt" [2]) =
        some (⟨some 200, "SUCCESS"⟩, fs1) ∧
      ∀ q, fs1 q =
        if q = Join [uploadPath, "a.txt"] ∨ (Join [uploadPath, "a.txt"] ++ "/").data <+: q.data
        then none else ((oneFile "public/a.txt" [1]).write "public/b.txt" [2]) q :=
  delete_requests none ((oneFile "public/a.txt" [1]).write "public/b.txt" [2]) "a.txt"
    (by decide)

/-- The handler called on `/delete` itself, which the mux never hands to it: the
slice `r.URL.Path[len(PREFIX)+1:]` is out of range and the handler of either
server panics; on `/delete/` it answers `400 INVALID_URL` and removes nothing;
on `/delete/a.txt` it answers `SUCCESS` and removes `public/a.txt`, leaving the
other files. -/
theorem delete_prefix_without_slash_panics :
    (cfserver.deleteFileHandler none "/delete" (oneFile "public/a.txt" [1])).isNone = true ∧
      (server.deleteFileHandler none "/delete" (oneFile "public/a.txt" [1])).isNone = true ∧
      (cfserver.deleteFileHandler none "/delete/" (oneFile "public/a.txt" [1])).map
        (fun r => (r.1, r.2 "public/a.txt")) =
        some (⟨some 400, "INVALID_URL"⟩, some [1]) ∧
      (cfserver.deleteFileHandler none "/delete/a.txt"
        ((oneFile "public/a.txt" [1]).write "public/b.txt" [2])).map
        (fun r => (r.1, r.2 "public/a.txt", r.2 "public/b.txt")) =
        some (⟨some 200, "SUCCESS"⟩, none, some [2]) := by
  refine ⟨by decide, by decide, by decide, by decide⟩

/-- C13, `PadStr` short of the column width: the loop bound `width-len(str)` is
computed again on the string as it grows, so `PadStr("1KB", 12)` stops after 5
spaces and returns 8 characters, not 12; in general the padding is half the
missing width, rounded up. -/
theorem PadStr_short_of_width :
    PadStr "1KB" 12 = some "1KB     " ∧
      (PadStr "1KB" 12).map String.length = some 8 ∧
      (PadStr "1KB" 12).map String.length ≠ some (max "1KB".length 12) := by
  refine ⟨by decide, by decide, by decide⟩

/-- C12, the claim as stated fails when the only `'/'` of the remote path is
its first character: for `/abc` the test `pos > 0` does not hold, the derived
file name is `/abc`, which contains a `'/'` and is not the text after the last
`'/'`. -/
theorem leading_slash_kept :
    localFileName "/abc" = "/abc" ∧ '/' ∈ (localFileName "/abc").data ∧
      trailingSegment "/abc" = "abc" ∧ localFileName "/abc" ≠ trailingSegment "/abc" := by
  refine ⟨by decide, by decide, by decide, by decide⟩

/-- C12 as amended: the file name the downloader derives is the whole remote
path when the only `'/'` of the path is its first character, and the trailing
segment (the text after the last `'/'`, the whole path when there is none) in
every other case, where it contains no `'/'`; in both cases the local path
`filepath.Join(".", to, filename)` is the one the trailing segment gives. -/
theorem localFileName_eq (src : String) :
    localFileName src =
        (if src.data.head? = some '/' ∧ '/' ∉ src.data.tail then src
         else trailingSegment src) ∧
      (¬ (src.data.head? = some '/' ∧ '/' ∉ src.data.tail) →
        '/' ∉ (localFileName src).data) ∧
      ∀ dst, Join [".", dst, localFileName src] = Join [".", dst, trailingSegment src] := by
  have hseg : '/' ∉ (trailingSegment src).data := by
    intro h
    simp only [trailingSegment, List.mem_reverse] at h
    have := List.mem_takeWhile_imp h
    simp at this
  by_cases hmem : '/' ∈ src.data
  · obtain ⟨pre, post, hs, hpost⟩ := exists_last_occurrence '/' src.data hmem
    cases pre with
    | nil =>
      have hcond : src.data.head? = some '/' ∧ '/' ∉ src.data.tail := by
        rw [hs]
        exact ⟨rfl, hpost⟩
      have hloc := localFileName_leading src post hs hpost
      have htr := trailingSegment_last src [] post hs hpost
      refine ⟨by rw [if_pos hcond, hloc], fun h => absurd hcond h, fun dst => ?_⟩
      have hsrc : src = String.mk ('/' :: post) := String.ext hs
      rw [hloc, htr, hsrc]
      exact Join_leading_slash dst post
    | cons c pre =>
      have hcond : ¬ (src.data.head? = some '/' ∧ '/' ∉ src.data.tail) := by
        rw [hs]
        intro h
        apply h.2
        simp
      have hloc := localFileName_inner src c pre post hs hpost
      have htr := trailingSegment_last src (c :: pre) post hs hpost
      refine ⟨by rw [if_neg hcond, hloc, htr], fun _ => ?_, fun dst => by rw [hloc, htr]⟩
      rw [hloc, ← htr]
      exact hseg
  · have hcond : ¬ (src.data.head? = some '/' ∧ '/' ∉ src.data.tail) := by
      intro h
      apply hmem
      cases hd : src.data with
      | nil => rw [hd] at h; simp at h
      | cons c cs =>
        rw [hd] at h
        simp only [List.head?_cons, Option.some.injEq] at h
        rw [h.1]
        exact List.mem_cons_self _ _
    have hloc := localFileName_absent src hmem
    have htr := trailingSegment_absent src hmem
    refine ⟨by rw [if_neg hcond, hloc, htr], fun _ => ?_, fun dst => by rw [hloc, htr]⟩
    rw [hloc]
    exact hmem

/-- Witness of C12 as amended: the remote path `d/a.txt`. -/
theorem localFileName_eq_witness :
    localFileName "d/a.txt" =
        (if "d/a.txt".data.head? = some '/' ∧ '/' ∉ "d/a.txt".data.tail then "d/a.txt"
         else trailingSegment "d/a.txt") ∧
      (¬ ("d/a.txt".data.head? = some '/' ∧ '/' ∉ "d/a.txt".data.tail) →
        '/' ∉ (localFileName "d/a.txt").data) ∧
      ∀ dst, Join [".", dst, localFileName "d/a.txt"] =
        Join [".", dst, trailingSegment "d/a.txt"] :=
  localFileName_eq "d/a.txt"

end Cmdfiles
